import Mathlib

/-!
Verification development for the searcherer library: a shallow embedding of
the Dictionary and Searcherer components (the authoritative generator-based
versions of src/api/Dictionary.js and the Searcherer in src/cli/CLI.js),
together with models of the fragments of the JavaScript host that the source
relies on: JSON.parse, the RegExp constructor and its global exec protocol,
Set and Map behaviour, String.prototype.substring/split, and the Node fs
callback convention.
-/

/-- JavaScript strings are modelled as lists of characters. -/
abbrev Str := List Char

/-- Coerce a Lean string literal to the character-list model. -/
def strL (s : String) : Str := s.data

/-- Populating a JavaScript Set from a sequence: the first occurrence of an
element wins and keeps its position, later duplicates are dropped. -/
def insertionDedup (l : List Str) : List Str :=
  l.foldl (fun acc x => if acc.contains x then acc else acc ++ [x]) []

/-- ECMAScript String.prototype.substring: both indices are clamped into the
string, and the smaller one becomes the start. -/
def jsSubstring (s : Str) (a b : Nat) : Str :=
  (s.take (max (min a s.length) (min b s.length))).drop
    (min (min a s.length) (min b s.length))

/-- The split performed by Searcherer.search: value.split on the regex
matching CRLF as a single separator, else a lone CR, else a lone LF. -/
def splitLines : Str → List Str
  | [] => [[]]
  | '\r' :: '\n' :: rest => [] :: splitLines rest
  | '\r' :: rest => [] :: splitLines rest
  | '\n' :: rest => [] :: splitLines rest
  | c :: rest =>
    match splitLines rest with
    | [] => [[c]]
    | l :: ls => (c :: l) :: ls

/-- Errors thrown by the JavaScript host while the library runs. -/
inductive JsError where
  | typeError (message : Str) : JsError
  | badJson (message : Str) : JsError
  | patternCompilation (source : Str) : JsError
  | fileNotFound (path : Str) : JsError
deriving DecidableEq

/-- JSON values as produced by the host JSON.parse. Fragment: numeric
literals are not modelled; the dictionary files the claims involve contain
only null, booleans, strings, arrays and objects. -/
inductive JsValue where
  | null : JsValue
  | bool (b : Bool) : JsValue
  | str (s : Str) : JsValue
  | arr (elements : List JsValue) : JsValue
  | obj (fields : List (Str × JsValue)) : JsValue

/-- JSON insignificant whitespace. -/
def jsonWs (c : Char) : Bool :=
  c == ' ' || c == '\t' || c == '\n' || c == '\r'

/-- Skip insignificant whitespace. -/
def skipWs (cs : List Char) : List Char := cs.dropWhile jsonWs

/-- Decode one JSON escape character (fragment: the single-character escapes;
the claims involve no unicode escapes). -/
def jsonEscape (e : Char) : Option Char :=
  if e = '"' then some '"'
  else if e = '\\' then some '\\'
  else if e = '/' then some '/'
  else if e = 'b' then some (Char.ofNat 8)
  else if e = 'f' then some (Char.ofNat 12)
  else if e = 'n' then some '\n'
  else if e = 'r' then some '\r'
  else if e = 't' then some '\t'
  else none

/-- Parse the body of a JSON string, the opening quote already consumed. -/
def jsonStringBody : List Char → Except JsError (Str × List Char)
  | [] => .error (.badJson (strL "unterminated string"))
  | c :: rest =>
    if c = '"' then .ok ([], rest)
    else if c = '\\' then
      match rest with
      | [] => .error (.badJson (strL "unterminated escape"))
      | e :: rest2 =>
        match jsonEscape e with
        | some d => (jsonStringBody rest2).map (fun p => (d :: p.1, p.2))
        | none => .error (.badJson (strL "unsupported escape"))
    else (jsonStringBody rest).map (fun p => (c :: p.1, p.2))

mutual

/-- Parse one JSON value; the fuel bounds nesting and list length. -/
def jsonValue : Nat → List Char → Except JsError (JsValue × List Char)
  | 0, _ => .error (.badJson (strL "fuel"))
  | _ + 1, [] => .error (.badJson (strL "unexpected end of input"))
  | fuel + 1, c :: rest =>
    if c = '"' then (jsonStringBody rest).map (fun p => (.str p.1, p.2))
    else if c = '[' then
      match skipWs rest with
      | ']' :: rest2 => .ok (.arr [], rest2)
      | rest1 => (jsonElements fuel rest1).map (fun p => (.arr p.1, p.2))
    else if c = Char.ofNat 123 then
      match skipWs rest with
      | more =>
        if more.head? = some (Char.ofNat 125) then .ok (.obj [], more.tail)
        else (jsonMembers fuel more).map (fun p => (.obj p.1, p.2))
    else if c = 'n' then
      match rest with
      | 'u' :: 'l' :: 'l' :: rest2 => .ok (.null, rest2)
      | _ => .error (.badJson (strL "bad literal"))
    else if c = 't' then
      match rest with
      | 'r' :: 'u' :: 'e' :: rest2 => .ok (.bool true, rest2)
      | _ => .error (.badJson (strL "bad literal"))
    else if c = 'f' then
      match rest with
      | 'a' :: 'l' :: 's' :: 'e' :: rest2 => .ok (.bool false, rest2)
      | _ => .error (.badJson (strL "bad literal"))
    else .error (.badJson (strL "unsupported token"))

/-- Parse the elements of a non-empty JSON array, after the opening bracket
and leading whitespace. -/
def jsonElements : Nat → List Char → Except JsError (List JsValue × List Char)
  | 0, _ => .error (.badJson (strL "fuel"))
  | fuel + 1, cs =>
    match jsonValue fuel cs with
    | .error e => .error e
    | .ok (v, rest) =>
      match skipWs rest with
      | ',' :: rest2 => (jsonElements fuel (skipWs rest2)).map (fun p => (v :: p.1, p.2))
      | ']' :: rest2 => .ok ([v], rest2)
      | _ => .error (.badJson (strL "expected comma or bracket"))

/-- Parse the members of a non-empty JSON object, after the opening brace
and leading whitespace. -/
def jsonMembers : Nat → List Char → Except JsError (List (Str × JsValue) × List Char)
  | 0, _ => .error (.badJson (strL "fuel"))
  | fuel + 1, cs =>
    match cs with
    | '"' :: rest =>
      match jsonStringBody rest with
      | .error e => .error e
      | .ok (key, rest1) =>
        match skipWs rest1 with
        | ':' :: rest2 =>
          match jsonValue fuel (skipWs rest2) with
          | .error e => .error e
          | .ok (v, rest3) =>
            match skipWs rest3 with
            | ',' :: rest4 => (jsonMembers fuel (skipWs rest4)).map (fun p => ((key, v) :: p.1, p.2))
            | more =>
              if more.head? = some (Char.ofNat 125) then .ok ([(key, v)], more.tail)
              else .error (.badJson (strL "expected comma or brace"))
        | _ => .error (.badJson (strL "expected colon"))
    | _ => .error (.badJson (strL "expected key"))

end

/-- The host JSON.parse on the modelled fragment. -/
def jsonParse (s : Str) : Except JsError JsValue :=
  match jsonValue (s.length + 1) (skipWs s) with
  | .error e => .error e
  | .ok (v, rest) =>
    if (skipWs rest).isEmpty then .ok v
    else .error (.badJson (strL "unexpected trailing input"))

/-- JavaScript truthiness of a value, none standing for undefined. -/
def jsTruthy : Option JsValue → Bool
  | none => false
  | some .null => false
  | some (.bool b) => b
  | some (.str s) => !s.isEmpty
  | some (.arr _) => true
  | some (.obj _) => true

/-- The JavaScript logical-or operator on the modelled values: the left
operand when truthy, otherwise the right. -/
def jsOr (a b : Option JsValue) : Option JsValue := if jsTruthy a then a else b

/-- Property access data.key: own properties exist only on plain objects,
with the last duplicate key winning as JSON.parse builds them. Strings,
arrays, booleans and null have no own name or patterns property, so the
access yields undefined. -/
def getProp : JsValue → Str → Option JsValue
  | .obj fields, key => fields.foldl (fun acc kv => if kv.1 == key then some kv.2 else acc) none
  | _, _ => none

/-- Abstract syntax of the regular-expression fragment of ECMAScript RegExp
modelled here: literal characters, the dot, grouping, alternation and the
star quantifier (plus and question are desugared by the compiler). -/
inductive RE where
  | eps : RE
  | lit (c : Char) : RE
  | dot : RE
  | cat (r1 r2 : RE) : RE
  | alt (r1 r2 : RE) : RE
  | star (r : RE) : RE
deriving DecidableEq

mutual

/-- Parse an alternation lhs|rhs|rhs. -/
def reAlt : Nat → List Char → Except JsError (RE × List Char)
  | 0, _ => .error (.patternCompilation (strL "fuel"))
  | fuel + 1, cs =>
    match reSeq fuel cs with
    | .error e => .error e
    | .ok (r1, rest) =>
      match rest with
      | '|' :: rest2 => (reAlt fuel rest2).map (fun p => (RE.alt r1 p.1, p.2))
      | _ => .ok (r1, rest)

/-- Parse a concatenation of quantified atoms; stops at an alternation bar,
a closing group or the end of the pattern. -/
def reSeq : Nat → List Char → Except JsError (RE × List Char)
  | 0, _ => .error (.patternCompilation (strL "fuel"))
  | fuel + 1, cs =>
    match cs with
    | [] => .ok (RE.eps, [])
    | '|' :: _ => .ok (RE.eps, cs)
    | ')' :: _ => .ok (RE.eps, cs)
    | _ =>
      match reAtom fuel cs with
      | .error e => .error e
      | .ok (r, rest) =>
        let quantified :=
          match rest with
          | '*' :: t => (RE.star r, t)
          | '+' :: t => (RE.cat r (RE.star r), t)
          | '?' :: t => (RE.alt r RE.eps, t)
          | _ => (r, rest)
        (reSeq fuel quantified.2).map (fun p => (RE.cat quantified.1 p.1, p.2))

/-- Parse one atom: a group, the dot, an escape or a literal character. The
unsupported RegExp constructs of the fragment (character classes, anchors,
braces, alphanumeric escape classes) are reported as compilation errors,
which only narrows the modelled pattern language. A dangling quantifier or
an unbalanced group is a genuine RegExp SyntaxError. -/
def reAtom : Nat → List Char → Except JsError (RE × List Char)
  | 0, _ => .error (.patternCompilation (strL "fuel"))
  | fuel + 1, cs =>
    match cs with
    | [] => .error (.patternCompilation (strL "unexpected end"))
    | '(' :: rest =>
      (match reAlt fuel rest with
       | .error e => .error e
       | .ok (r, rest2) =>
         match rest2 with
         | ')' :: rest3 => .ok (r, rest3)
         | _ => .error (.patternCompilation (strL "unterminated group")))
    | '.' :: rest => .ok (RE.dot, rest)
    | '\\' :: rest =>
      (match rest with
       | [] => .error (.patternCompilation (strL "trailing backslash"))
       | e :: rest2 =>
         if e = 'n' then .ok (RE.lit '\n', rest2)
         else if e = 't' then .ok (RE.lit '\t', rest2)
         else if e = 'r' then .ok (RE.lit '\r', rest2)
         else if e.isAlphanum then .error (.patternCompilation (strL "unsupported escape"))
         else .ok (RE.lit e, rest2))
    | c :: rest =>
      if c = '*' ∨ c = '+' ∨ c = '?' then .error (.patternCompilation (strL "nothing to repeat"))
      else if c = ')' ∨ c = '|' then .error (.patternCompilation (strL "unexpected token"))
      else if c = '[' ∨ c = ']' ∨ c = Char.ofNat 123 ∨ c = Char.ofNat 125 ∨ c = '^' ∨ c = '$' then
        .error (.patternCompilation (strL "unsupported construct"))
      else .ok (RE.lit c, rest)

end

/-- The compiled form of a JavaScript RegExp created with the g or gi flags:
the pattern source, its parsed form, the ignoreCase flag and the mutable
lastIndex slot driven by the global exec protocol. -/
structure JsRegExp where
  source : Str
  re : RE
  ignoreCase : Bool
  lastIndex : Nat
deriving DecidableEq

/-- Model of new RegExp(pattern, flags): parse the pattern, failing with a
SyntaxError carried as a pattern-compilation error on malformed syntax; a
fresh RegExp has lastIndex 0. -/
def regExpNew (pattern : Str) (ignoreCase : Bool) : Except JsError JsRegExp :=
  match reAlt (pattern.length + 2) pattern with
  | .error _ => .error (.patternCompilation pattern)
  | .ok (r, rest) =>
    if rest.isEmpty then .ok ⟨pattern, r, ignoreCase, 0⟩
    else .error (.patternCompilation pattern)

/-- Character comparison under the optional ignore-case canonicalisation of
the i flag. -/
def charEq (ignoreCase : Bool) (a b : Char) : Bool :=
  if ignoreCase then a.toLower == b.toLower else a == b

/-- All lengths of matches of the expression against an initial segment of
the input, in the backtracking priority order of the ECMAScript engine:
greedy star, left alternative first. The head is the length the engine
reports at this position. A star iteration must consume input, as in the
RepeatMatcher clause that terminates the loop on an empty iteration; every
recursive call therefore decreases the lexicographic (input length,
expression size) measure, and the structural fuel of the wrapper below
dominates every such chain. -/
def matchLensF (ignoreCase : Bool) : Nat → RE → List Char → List Nat
  | 0, _, _ => []
  | _ + 1, .eps, _ => [0]
  | _ + 1, .lit _, [] => []
  | _ + 1, .lit c, d :: _ => if charEq ignoreCase c d then [1] else []
  | _ + 1, .dot, [] => []
  | _ + 1, .dot, d :: _ => if d = '\n' ∨ d = '\r' then [] else [1]
  | fuel + 1, .cat r1 r2, s =>
    (matchLensF ignoreCase fuel r1 s).flatMap
      (fun n => (matchLensF ignoreCase fuel r2 (s.drop n)).map (fun m => n + m))
  | fuel + 1, .alt r1 r2, s =>
    matchLensF ignoreCase fuel r1 s ++ matchLensF ignoreCase fuel r2 s
  | fuel + 1, .star r, s =>
    (((matchLensF ignoreCase fuel r s).filter
        (fun n => decide (0 < n) && decide (n ≤ s.length))).flatMap
      (fun n => (matchLensF ignoreCase fuel (.star r) (s.drop n)).map (fun m => n + m))) ++ [0]

/-- Structural size of an expression, bounding the matcher recursion. -/
def RE.size : RE → Nat
  | .eps => 1
  | .lit _ => 1
  | .dot => 1
  | .cat r1 r2 => r1.size + r2.size + 1
  | .alt r1 r2 => r1.size + r2.size + 1
  | .star r => r.size + 1

/-- The priority-ordered match lengths of an expression at the start of an
input, with fuel covering the longest possible recursion chain. -/
def matchLens (ignoreCase : Bool) (re : RE) (s : List Char) : List Nat :=
  matchLensF ignoreCase ((s.length + 1) * (re.size + 1)) re s

/-- Scan forward from index i, with explicit fuel, for the first position at
which the expression matches, reporting the position and the priority-first
match length there. -/
def findFromF (ignoreCase : Bool) (re : RE) (s : Str) : Nat → Nat → Option (Nat × Nat)
  | 0, _ => none
  | fuel + 1, i =>
    if i ≤ s.length then
      match (matchLens ignoreCase re (s.drop i)).head? with
      | some n => some (i, n)
      | none => findFromF ignoreCase re s fuel (i + 1)
    else none

/-- Scan forward from index i for the first position at which the expression
matches; the fuel of the worker covers every start index up to the length. -/
def findFrom (ignoreCase : Bool) (re : RE) (s : Str) (i : Nat) : Option (Nat × Nat) :=
  findFromF ignoreCase re s (s.length + 1) i

/-- RegExpBuiltinExec for a regexp with the global flag: scan from lastIndex
(immediately failing when it exceeds the input); on success report the match
index and text and advance lastIndex to the end of the match; on failure
reset lastIndex to 0 and report null. -/
def execG (r : JsRegExp) (s : Str) : Option (Nat × Str) × JsRegExp :=
  match findFrom r.ignoreCase r.re s r.lastIndex with
  | some (i, n) => (some (i, (s.drop i).take n), ⟨r.source, r.re, r.ignoreCase, i + n⟩)
  | none => (none, ⟨r.source, r.re, r.ignoreCase, 0⟩)

/-- The Dictionary data proper: its name and its pattern set in insertion
order. The mutable [_regExpMaps] cache is threaded separately so that the
in-place mutations of the source are explicit. Pattern sets built by the
constructor are duplicate-free. -/
structure Dictionary where
  name : Str
  patterns : List Str
deriving DecidableEq

/-- One entry of a compiled regExpMap, as stored by Map.set(pattern, regExp). -/
structure CompiledEntry where
  pattern : Str
  regExp : JsRegExp
deriving DecidableEq

/-- The [_regExpMaps] cache of one Dictionary: a Map from the caseSensitive
boolean to the compiled map for that mode. -/
structure RegExpMaps where
  modeTrue : Option (List CompiledEntry)
  modeFalse : Option (List CompiledEntry)
deriving DecidableEq

/-- The cache of a freshly constructed Dictionary: new Map(). -/
def RegExpMaps.empty : RegExpMaps := ⟨none, none⟩

/-- Map.get on the cache. -/
def RegExpMaps.get (m : RegExpMaps) (caseSensitive : Bool) : Option (List CompiledEntry) :=
  if caseSensitive then m.modeTrue else m.modeFalse

/-- Map.set on the cache. -/
def RegExpMaps.set (m : RegExpMaps) (caseSensitive : Bool) (entries : List CompiledEntry) :
    RegExpMaps :=
  if caseSensitive then ⟨some entries, m.modeFalse⟩ else ⟨m.modeTrue, some entries⟩

/-- Compile one RegExp per pattern in order, with flags g when caseSensitive
and gi otherwise, stopping at the first compilation failure. -/
def compileEntries : List Str → Bool → Except JsError (List CompiledEntry)
  | [], _ => .ok []
  | p :: rest, caseSensitive =>
    match regExpNew p (!caseSensitive) with
    | .error e => .error e
    | .ok r => (compileEntries rest caseSensitive).map (fun es => ⟨p, r⟩ :: es)

/-- Dictionary[_createRegExpMap]: return the cached map for the mode when
present, otherwise compile a map from the pattern set, store it and return
it. A compilation failure propagates and nothing is cached. -/
def Dictionary.createRegExpMap (d : Dictionary) (maps : RegExpMaps) (caseSensitive : Bool) :
    Except JsError (List CompiledEntry × RegExpMaps) :=
  match maps.get caseSensitive with
  | some entries => .ok (entries, maps)
  | none =>
    match compileEntries d.patterns caseSensitive with
    | .error e => .error e
    | .ok entries => .ok (entries, maps.set caseSensitive entries)

/-- A search result record. The source field named match is called matched
here because match is reserved in Lean. -/
structure SearchResult where
  columnNumber : Nat
  dictionary : Dictionary
  line : Str
  lineNumber : Nat
  matched : Str
  pattern : Str
deriving DecidableEq

/-- The suspended state of the Dictionary.search generator: the line context,
the entries whose while-loops have already finished (each exec failure reset
its lastIndex to 0), and the entries still to visit, the first of which is
the one the current while-loop is scanning. -/
structure GenState where
  dict : Dictionary
  line : Str
  lineNumber : Nat
  donePart : List CompiledEntry
  todo : List CompiledEntry
deriving DecidableEq

/-- The regExpMap object underlying a generator state, as the cache sees it. -/
def GenState.entries (st : GenState) : List CompiledEntry := st.donePart ++ st.todo

/-- Outcome of resuming the generator: the next yielded result with the
successor state, or completion together with the final regExpMap entries. -/
inductive GenStep where
  | yield (r : SearchResult) (st : GenState) : GenStep
  | finished (entries : List CompiledEntry) : GenStep
deriving DecidableEq

/-- Worker for resuming the generator: walk the remaining entries, running
regExp.exec on each; an exec failure stores the reset regexp with the done
entries and moves on to the next pattern. -/
def genStepAux (d : Dictionary) (line : Str) (ln : Nat) :
    List CompiledEntry → List CompiledEntry → GenStep
  | done1, [] => .finished done1
  | done1, e :: rest =>
    match execG e.regExp line with
    | (some (i, m), r2) =>
      .yield ⟨i, d, line, ln, m, e.pattern⟩ ⟨d, line, ln, done1, ⟨e.pattern, r2⟩ :: rest⟩
    | (none, r2) => genStepAux d line ln (done1 ++ [⟨e.pattern, r2⟩]) rest

/-- Resume the Dictionary.search generator to its next yield or to its end,
performing the regExp.exec side effects of the source while-loop. -/
def genStep (st : GenState) : GenStep :=
  genStepAux st.dict st.line st.lineNumber st.donePart st.todo

/-- Consume the generator to the end, collecting every yielded result and
the final entries; none records that consumption does not finish within
fuel yields (the claims about finiteness quantify over every fuel). -/
def genRun : Nat → GenState → Option (List SearchResult × List CompiledEntry)
  | 0, st =>
    match genStep st with
    | .finished es => some ([], es)
    | .yield _ _ => none
  | fuel + 1, st =>
    match genStep st with
    | .finished es => some ([], es)
    | .yield r st2 => (genRun fuel st2).map (fun p => (r :: p.1, p.2))

/-- Consume at most count results and abandon the generator, as a consumer
that stops early does; the state keeps the lastIndex mutations made so far. -/
def genTake (count : Nat) (st : GenState) : List SearchResult × GenState :=
  match count with
  | 0 => ([], st)
  | c + 1 =>
    match genStep st with
    | .finished es => ([], ⟨st.dict, st.line, st.lineNumber, es, []⟩)
    | .yield r st2 =>
      let p := genTake c st2
      (r :: p.1, p.2)

/-- Invoking dictionary.search(context) and consuming the whole generator:
fetch or compile the regExpMap for the mode, then run every pattern's
while-loop in order. The returned cache reflects the in-place lastIndex
mutations; a compilation failure propagates; the ok-none outcome records
that consumption never finishes. -/
def Dictionary.searchAll (d : Dictionary) (maps : RegExpMaps) (caseSensitive : Bool)
    (line : Str) (lineNumber : Nat) (fuel : Nat) :
    Except JsError (Option (List SearchResult × RegExpMaps)) :=
  match d.createRegExpMap maps caseSensitive with
  | .error e => .error e
  | .ok (entries, maps2) =>
    match genRun fuel ⟨d, line, lineNumber, [], entries⟩ with
    | none => .ok none
    | some (rs, final) => .ok (some (rs, maps2.set caseSensitive final))

/-- Invoking dictionary.search(context), consuming only the first count
results and abandoning the generator; the cached regExpMap keeps the mutated
lastIndex values. -/
def Dictionary.searchTake (d : Dictionary) (maps : RegExpMaps) (caseSensitive : Bool)
    (line : Str) (lineNumber : Nat) (count : Nat) :
    Except JsError (List SearchResult × RegExpMaps) :=
  match d.createRegExpMap maps caseSensitive with
  | .error e => .error e
  | .ok (entries, maps2) =>
    let p := genTake count ⟨d, line, lineNumber, [], entries⟩
    .ok (p.1, maps2.set caseSensitive p.2.entries)

/-- The [_dictionaries] Set of a Searcherer paired with each Dictionary's
private cache state. -/
abbrev DictStore := List (Dictionary × RegExpMaps)

/-- A store whose dictionaries all carry a fresh cache, the state of a
Searcherer right after registration. -/
def freshStore (ds : List Dictionary) : DictStore := ds.map (fun d => (d, RegExpMaps.empty))

/-- The options object of the search methods; a filter value of some f
models passing a function. -/
structure SearchOptions where
  caseSensitive : Bool
  filter : Option (Dictionary → Bool)

/-- The per-line loop over the dictionaries without a filter: each
dictionary's generator is fully consumed in registration order and its
results appended. -/
def searchLineDicts : DictStore → Bool → Str → Nat → Nat →
    Except JsError (Option (List SearchResult × DictStore))
  | [], _, _, _, _ => .ok (some ([], []))
  | (d, m) :: store, caseSensitive, line, ln, fuel =>
    match d.searchAll m caseSensitive line ln fuel with
    | .error e => .error e
    | .ok none => .ok none
    | .ok (some (rs, m2)) =>
      match searchLineDicts store caseSensitive line ln fuel with
      | .error e => .error e
      | .ok none => .ok none
      | .ok (some (rs2, store2)) => .ok (some (rs ++ rs2, (d, m2) :: store2))

/-- Searcherer[_searchLine]: when a filter function is supplied the source
evaluates dictionaries.filter(...), but the [_dictionaries] field is a
native Set and Set.prototype has no filter method, so the property access
yields undefined and the call throws a TypeError before any matching. -/
def searchLine (store : DictStore) (options : SearchOptions) (line : Str)
    (lineNumber fuel : Nat) :
    Except JsError (Option (List SearchResult × DictStore)) :=
  match options.filter with
  | some _ => .error (.typeError (strL "dictionaries.filter is not a function"))
  | none => searchLineDicts store options.caseSensitive line lineNumber fuel

/-- The lines.forEach loop of Searcherer.search. -/
def searchAllLines : List Str → Nat → DictStore → SearchOptions → Nat →
    Except JsError (Option (List SearchResult × DictStore))
  | [], _, store, _, _ => .ok (some ([], store))
  | line :: rest, ln, store, options, fuel =>
    match searchLine store options line ln fuel with
    | .error e => .error e
    | .ok none => .ok none
    | .ok (some (rs, store2)) =>
      match searchAllLines rest (ln + 1) store2 options fuel with
      | .error e => .error e
      | .ok none => .ok none
      | .ok (some (rs2, store3)) => .ok (some (rs ++ rs2, store3))

/-- Searcherer.search(value, options): an absent or empty value returns the
empty list at once; otherwise the value is split into lines and each line
searched in order, every error propagating to the caller. -/
def Searcherer.search (store : DictStore) (value : Option Str) (options : SearchOptions)
    (fuel : Nat) :
    Except JsError (Option (List SearchResult × DictStore)) :=
  match value with
  | none => .ok (some ([], store))
  | some v =>
    if v.isEmpty then .ok (some ([], store))
    else searchAllLines (splitLines v) 0 store options fuel

/-- A string coerced from a modelled value, none when the value is not a
string (outside the modelled fragment for the name slot). -/
def asStr : JsValue → Option Str
  | .str s => some s
  | _ => none

/-- All elements coerced to strings, none when some element is not a string. -/
def asStrings : List JsValue → Option (List Str)
  | [] => some []
  | v :: rest =>
    match asStr v with
    | none => none
    | some s => (asStrings rest).map (fun l => s :: l)

/-- Model of new Set(v) as used by the Dictionary constructor: an array of
strings deduplicates keeping first positions; a string iterates into its
characters; null gives the empty set. Other arguments (non-string array
elements, objects, true) are outside the modelled fragment. -/
def setOfValue : JsValue → Option (List Str)
  | .arr xs => (asStrings xs).map insertionDedup
  | .str s => some (insertionDedup (s.map (fun c => [c])))
  | .null => some []
  | _ => none

/-- The options object given to the Dictionary constructor or as parse
defaults: the name and patterns properties, none when undefined. -/
structure DictionaryOptions where
  name : Option JsValue
  patterns : Option JsValue

/-- The JavaScript logical-or against a defined, truthy default. -/
def jsOrDefined (a : Option JsValue) (b : JsValue) : JsValue :=
  match a with
  | some v => if jsTruthy (some v) then v else b
  | none => b

/-- Model of new Dictionary(options): the name is options.name when truthy,
else the unknown sentinel; the patterns are new Set(options.patterns || []).
The constructor compiles nothing and cannot fail; none only marks options
outside the modelled value fragment. -/
def Dictionary.new (options : DictionaryOptions) : Option Dictionary :=
  match asStr (jsOrDefined options.name (.str (strL "<unknown>"))) with
  | none => none
  | some n =>
    match setOfValue (jsOrDefined options.patterns (.arr [])) with
    | none => none
    | some ps => some ⟨n, ps⟩

/-- Model of Dictionary.parse(str, defaults): null input gives null; the
input is otherwise decoded by JSON.parse (errors propagating); a decoded
null gives null; a decoded array becomes new Dictionary(patterns data) with
the defaults ignored; anything else takes the generic branch reading the
name and patterns properties with truthiness fallback to the defaults. -/
def Dictionary.parse (str : Option Str) (defaults : DictionaryOptions) :
    Option (Except JsError (Option Dictionary)) :=
  match str with
  | none => some (.ok none)
  | some raw =>
    match jsonParse raw with
    | .error e => some (.error e)
    | .ok .null => some (.ok none)
    | .ok (.arr xs) =>
      (Dictionary.new ⟨none, some (.arr xs)⟩).map (fun d => .ok (some d))
    | .ok data =>
      (Dictionary.new ⟨jsOr (getProp data (strL "name")) defaults.name,
                       jsOr (getProp data (strL "patterns")) defaults.patterns⟩).map
        (fun d => .ok (some d))

/-- File contents as bytes; the abstract file system maps paths to contents. -/
abbrev FileSystem := Str → Option (List Nat)

/-- iconv.decode under the default utf8 encoding, on the ASCII fragment the
concrete claims use; none marks bytes outside that fragment. -/
def decodeUtf8 (bytes : List Nat) : Option Str :=
  if bytes.all (fun b => b < 128) then some (bytes.map (fun b => Char.ofNat b)) else none

/-- Encode an ASCII string as its bytes, for building concrete file systems. -/
def encodeAscii (s : Str) : List Nat := s.map (fun c => c.toNat)

/-- Searcherer[_searchFile]: decode the buffer, then delegate to search. -/
def Searcherer.searchFileBuf (store : DictStore) (buffer : List Nat)
    (options : SearchOptions) (fuel : Nat) :
    Option (Except JsError (Option (List SearchResult × DictStore))) :=
  (decodeUtf8 buffer).map (fun v => Searcherer.search store (some v) options fuel)

/-- Model of the promisified fs.readFile used by the asynchronous
searchFile: the file's bytes, or an error when the path is unreadable. -/
def fsReadFile (fsys : FileSystem) (filePath : Str) : Except JsError (List Nat) :=
  match fsys filePath with
  | none => .error (.fileNotFound filePath)
  | some buffer => .ok buffer

/-- Searcherer.searchFile (asynchronous variant): await readFile(filePath),
then [_searchFile] on the buffer. -/
def Searcherer.searchFile (store : DictStore) (fsys : FileSystem) (filePath : Str)
    (options : SearchOptions) (fuel : Nat) :
    Option (Except JsError (Option (List SearchResult × DictStore))) :=
  match fsReadFile fsys filePath with
  | .error e => some (.error e)
  | .ok buffer => Searcherer.searchFileBuf store buffer options fuel

/-- Node's fs.readFile invoked with no callback argument, which is exactly
what the source of searchFileSync executes: since Node 7 this throws a
TypeError (Callback must be a function) before touching the file, so no
buffer is ever produced. Compare registerFileSync, which correctly calls
fs.readFileSync. -/
def fsReadFileNoCallback (fsys : FileSystem) (filePath : Str) : Except JsError (List Nat) :=
  .error (.typeError (strL "Callback must be a function"))

/-- Searcherer.searchFileSync as written: const buffer = fs.readFile(filePath)
followed by [_searchFile](buffer, options). -/
def Searcherer.searchFileSync (store : DictStore) (fsys : FileSystem) (filePath : Str)
    (options : SearchOptions) (fuel : Nat) :
    Option (Except JsError (Option (List SearchResult × DictStore))) :=
  match fsReadFileNoCallback fsys filePath with
  | .error e => some (.error e)
  | .ok buffer => Searcherer.searchFileBuf store buffer options fuel

/-- The result list of a completed dictionary-level search outcome. -/
def dictOutcomeResults (x : Except JsError (Option (List SearchResult × RegExpMaps))) :
    Option (List SearchResult) :=
  match x with
  | .ok (some (rs, _)) => some rs
  | _ => none

/-- The cache state a completed dictionary-level search leaves behind, with
a fallback for the other outcomes. -/
def dictOutcomeMaps (x : Except JsError (Option (List SearchResult × RegExpMaps)))
    (fallback : RegExpMaps) : RegExpMaps :=
  match x with
  | .ok (some (_, m)) => m
  | _ => fallback

/-- The result list of a completed Searcherer.search outcome. -/
def searchOutcomeResults (x : Except JsError (Option (List SearchResult × DictStore))) :
    Option (List SearchResult) :=
  match x with
  | .ok (some (rs, _)) => some rs
  | _ => none

/-- The substring invariant required of every Result. -/
def resultInvariant (r : SearchResult) : Prop :=
  jsSubstring r.line r.columnNumber (r.columnNumber + r.matched.length) = r.matched

/-- Blocks decomposition of a completed generator run: results come as one
block per remaining entry, in entry order; within a block every result
carries the entry's pattern and the line context, columns are non-decreasing,
and no column precedes the entry's starting lastIndex. -/
inductive GenBlocks (d : Dictionary) (line : Str) (ln : Nat) :
    List CompiledEntry → List SearchResult → Prop where
  | nil : GenBlocks d line ln [] []
  | cons (e : CompiledEntry) (rest : List CompiledEntry)
      (block rs2 : List SearchResult)
      (hfields : ∀ r ∈ block, r.dictionary = d ∧ r.line = line ∧ r.lineNumber = ln ∧
        r.pattern = e.pattern)
      (hlb : ∀ r ∈ block, e.regExp.lastIndex ≤ r.columnNumber)
      (hcols : block.Pairwise (fun a b => a.columnNumber ≤ b.columnNumber))
      (hrest : GenBlocks d line ln rest rs2) :
      GenBlocks d line ln (e :: rest) (block ++ rs2)

/-- Position of the first occurrence of an element, the length when absent;
the iteration-order index used by the ordering statements. -/
def idxOf {α : Type} [DecidableEq α] (x : α) : List α → Nat
  | [] => 0
  | y :: rest => if y = x then 0 else idxOf x rest + 1

/-- Ordering key within one dictionary: pattern iteration order first, then
ascending column. -/
def patColLe (pats : List Str) (a b : SearchResult) : Prop :=
  idxOf a.pattern pats < idxOf b.pattern pats ∨
    (idxOf a.pattern pats = idxOf b.pattern pats ∧ a.columnNumber ≤ b.columnNumber)

/-- Ordering key within one line: dictionary iteration order first, then the
per-dictionary key. -/
def dictColLe (ds : List Dictionary) (a b : SearchResult) : Prop :=
  idxOf a.dictionary ds < idxOf b.dictionary ds ∨
    (idxOf a.dictionary ds = idxOf b.dictionary ds ∧ patColLe a.dictionary.patterns a b)

/-- The amended overall ordering: ascending line number first, then
dictionary iteration order, then pattern iteration order within the
dictionary, then ascending column. -/
def resultOrder (ds : List Dictionary) (a b : SearchResult) : Prop :=
  a.lineNumber < b.lineNumber ∨ (a.lineNumber = b.lineNumber ∧ dictColLe ds a b)

/-- The ordering as the claim states it: line number, then dictionary
iteration order, then ascending column within the line. -/
def claimedOrder (ds : List Dictionary) (a b : SearchResult) : Prop :=
  a.lineNumber < b.lineNumber ∨
    (a.lineNumber = b.lineNumber ∧
      (idxOf a.dictionary ds < idxOf b.dictionary ds ∨
        (idxOf a.dictionary ds = idxOf b.dictionary ds ∧
          a.columnNumber ≤ b.columnNumber)))

instance (pats : List Str) : DecidableRel (patColLe pats) := by
  intro a b
  unfold patColLe
  infer_instance

instance (ds : List Dictionary) : DecidableRel (dictColLe ds) := by
  intro a b
  unfold dictColLe
  infer_instance

instance (ds : List Dictionary) : DecidableRel (resultOrder ds) := by
  intro a b
  unfold resultOrder
  infer_instance

instance (ds : List Dictionary) : DecidableRel (claimedOrder ds) := by
  intro a b
  unfold claimedOrder
  infer_instance

/-- Well-formedness of a dictionary's cache: any stored compiled map lists
exactly the dictionary's patterns in order. -/
def MapsWF (d : Dictionary) (maps : RegExpMaps) : Prop :=
  ∀ cs entries, maps.get cs = some entries →
    entries.map CompiledEntry.pattern = d.patterns

/-- The result list of a completed partial consumption. -/
def takeOutcomeResults (x : Except JsError (List SearchResult × RegExpMaps)) :
    Option (List SearchResult) :=
  match x with
  | .ok (rs, _) => some rs
  | _ => none

/-- The cache state a partial consumption leaves behind. -/
def takeOutcomeMaps (x : Except JsError (List SearchResult × RegExpMaps))
    (fallback : RegExpMaps) : RegExpMaps :=
  match x with
  | .ok (_, m) => m
  | _ => fallback

/-- The result list of a completed file search. -/
def fileOutcomeResults
    (x : Option (Except JsError (Option (List SearchResult × DictStore)))) :
    Option (List SearchResult) :=
  x.bind searchOutcomeResults

/-- The reset form of a compiled entry, its lastIndex back at 0, exactly as
a failing exec leaves it in the cached map. -/
def resetEntry (e : CompiledEntry) : CompiledEntry :=
  ⟨e.pattern, ⟨e.regExp.source, e.regExp.re, e.regExp.ignoreCase, 0⟩⟩

theorem findFromF_some (ignoreCase : Bool) (re : RE) (s : Str) :
    ∀ fuel i j n, findFromF ignoreCase re s fuel i = some (j, n) →
      i ≤ j ∧ j ≤ s.length := by
  intro fuel
  induction fuel with
  | zero =>
    intro i j n h
    simp [findFromF] at h
  | succ fuel ih =>
    intro i j n h
    rw [findFromF] at h
    by_cases hi : i ≤ s.length
    · rw [if_pos hi] at h
      cases hh : (matchLens ignoreCase re (s.drop i)).head? with
      | some n2 =>
        rw [hh] at h
        cases h
        exact ⟨Nat.le_refl _, hi⟩
      | none =>
        rw [hh] at h
        have h2 := ih (i + 1) j n h
        exact ⟨by omega, h2.2⟩
    · rw [if_neg hi] at h
      cases h

theorem findFrom_some (ignoreCase : Bool) (re : RE) (s : Str) (i j n : Nat)
    (h : findFrom ignoreCase re s i = some (j, n)) : i ≤ j ∧ j ≤ s.length :=
  findFromF_some ignoreCase re s (s.length + 1) i j n h

theorem execG_some (r : JsRegExp) (s : Str) (j : Nat) (m : Str) (r2 : JsRegExp)
    (h : execG r s = (some (j, m), r2)) :
    r.lastIndex ≤ j ∧ j ≤ s.length ∧
      ∃ n, m = (s.drop j).take n ∧ r2 = ⟨r.source, r.re, r.ignoreCase, j + n⟩ := by
  unfold execG at h
  cases hf : findFrom r.ignoreCase r.re s r.lastIndex with
  | none =>
    rw [hf] at h
    simp at h
  | some p =>
    obtain ⟨i, n⟩ := p
    rw [hf] at h
    have hfs := findFrom_some r.ignoreCase r.re s r.lastIndex i n hf
    simp only [Prod.mk.injEq, Option.some.injEq] at h
    obtain ⟨⟨hj, hm⟩, hr2⟩ := h
    subst hj
    exact ⟨hfs.1, hfs.2, n, hm.symm, hr2.symm⟩

theorem execG_none (r : JsRegExp) (s : Str) (r2 : JsRegExp)
    (h : (execG r s).1 = none) :
    (execG r s).2 = ⟨r.source, r.re, r.ignoreCase, 0⟩ := by
  unfold execG at h ⊢
  cases hf : findFrom r.ignoreCase r.re s r.lastIndex with
  | none => rfl
  | some p =>
    rw [hf] at h
    simp at h

theorem jsSubstring_take_drop (s : Str) (i n : Nat) (h : i ≤ s.length) :
    jsSubstring s i (i + ((s.drop i).take n).length) = (s.drop i).take n := by
  unfold jsSubstring
  have hlen : ((s.drop i).take n).length = min n (s.length - i) := by
    simp
  have ha : min i s.length = i := by omega
  have hb : min (i + ((s.drop i).take n).length) s.length =
      i + ((s.drop i).take n).length := by omega
  rw [ha, hb]
  have hmin : min i (i + ((s.drop i).take n).length) = i := by omega
  have hmax : max i (i + ((s.drop i).take n).length) =
      i + ((s.drop i).take n).length := by omega
  rw [hmin, hmax, List.drop_take]
  have hsub : i + ((s.drop i).take n).length - i = ((s.drop i).take n).length := by omega
  rw [hsub, List.take_eq_take]
  simp

theorem genStepAux_finished (d : Dictionary) (line : Str) (ln : Nat) :
    ∀ todo done1 es, genStepAux d line ln done1 todo = .finished es →
      es = done1 ++ todo.map resetEntry := by
  intro todo
  induction todo with
  | nil =>
    intro done1 es h
    rw [genStepAux] at h
    cases h
    simp
  | cons e rest ih =>
    intro done1 es h
    rw [genStepAux] at h
    cases hx : execG e.regExp line with
    | mk o r2 =>
      rw [hx] at h
      cases o with
      | some p =>
        obtain ⟨i, m⟩ := p
        cases h
      | none =>
        have h2 := ih (done1 ++ [⟨e.pattern, r2⟩]) es h
        have hr : r2 = ⟨e.regExp.source, e.regExp.re, e.regExp.ignoreCase, 0⟩ := by
          have hz := execG_none e.regExp line r2 (by rw [hx])
          rw [hx] at hz
          exact hz
        subst hr
        rw [h2]
        simp [resetEntry]

theorem genStepAux_yield (d : Dictionary) (line : Str) (ln : Nat) :
    ∀ todo done1 r st2, genStepAux d line ln done1 todo = .yield r st2 →
      ∃ front e rest j n,
        todo = front ++ e :: rest ∧
        e.regExp.lastIndex ≤ j ∧ j ≤ line.length ∧
        r = ⟨j, d, line, ln, (line.drop j).take n, e.pattern⟩ ∧
        st2 = ⟨d, line, ln, done1 ++ front.map resetEntry,
               ⟨e.pattern, ⟨e.regExp.source, e.regExp.re, e.regExp.ignoreCase, j + n⟩⟩ :: rest⟩ := by
  intro todo
  induction todo with
  | nil =>
    intro done1 r st2 h
    rw [genStepAux] at h
    cases h
  | cons e rest ih =>
    intro done1 r st2 h
    rw [genStepAux] at h
    cases hx : execG e.regExp line with
    | mk o r2 =>
      rw [hx] at h
      cases o with
      | some p =>
        obtain ⟨j, m⟩ := p
        have hs := execG_some e.regExp line j m r2 hx
        obtain ⟨hle, hjlen, n, hm, hr2⟩ := hs
        cases h
        refine ⟨[], e, rest, j, n, by simp, hle, hjlen, ?_, ?_⟩
        · rw [hm]
        · rw [hr2]
          simp
      | none =>
        obtain ⟨front, e2, rest2, j, n, h1, h3, h4, h5, h6⟩ :=
          ih (done1 ++ [⟨e.pattern, r2⟩]) r st2 h
        have hr : r2 = ⟨e.regExp.source, e.regExp.re, e.regExp.ignoreCase, 0⟩ := by
          have hz := execG_none e.regExp line r2 (by rw [hx])
          rw [hx] at hz
          exact hz
        refine ⟨e :: front, e2, rest2, j, n, by simp [h1], h3, h4, h5, ?_⟩
        rw [h6]
        subst hr
        simp [resetEntry]

theorem genStep_yield_struct (st : GenState) (r : SearchResult) (st2 : GenState)
    (h : genStep st = .yield r st2) :
    ∃ front e rest j n,
      st.todo = front ++ e :: rest ∧
      e.regExp.lastIndex ≤ j ∧ j ≤ st.line.length ∧
      r = ⟨j, st.dict, st.line, st.lineNumber, (st.line.drop j).take n, e.pattern⟩ ∧
      st2 = ⟨st.dict, st.line, st.lineNumber, st.donePart ++ front.map resetEntry,
             ⟨e.pattern, ⟨e.regExp.source, e.regExp.re, e.regExp.ignoreCase, j + n⟩⟩ :: rest⟩ :=
  genStepAux_yield st.dict st.line st.lineNumber st.todo st.donePart r st2 h

theorem genStep_finished_entries (st : GenState) (es : List CompiledEntry)
    (h : genStep st = .finished es) : es = st.donePart ++ st.todo.map resetEntry :=
  genStepAux_finished st.dict st.line st.lineNumber st.todo st.donePart es h

theorem genRun_zero_eq (st : GenState) (es : List CompiledEntry)
    (hs : genStep st = .finished es) : genRun 0 st = some ([], es) := by
  rw [genRun, hs]

theorem genRun_zero_yield (st : GenState) (r : SearchResult) (st2 : GenState)
    (hs : genStep st = .yield r st2) : genRun 0 st = none := by
  rw [genRun, hs]

theorem genRun_succ_eq (fuel : Nat) (st : GenState) (es : List CompiledEntry)
    (hs : genStep st = .finished es) : genRun (fuel + 1) st = some ([], es) := by
  rw [genRun, hs]

theorem genRun_succ_yield (fuel : Nat) (st : GenState) (r : SearchResult) (st2 : GenState)
    (hs : genStep st = .yield r st2) :
    genRun (fuel + 1) st = (genRun fuel st2).map (fun p => (r :: p.1, p.2)) := by
  rw [genRun, hs]

theorem genRun_entries :
    ∀ fuel st rs es, genRun fuel st = some (rs, es) →
      es = st.donePart ++ st.todo.map resetEntry := by
  intro fuel
  induction fuel with
  | zero =>
    intro st rs es h
    cases hs : genStep st with
    | finished es2 =>
      rw [genRun_zero_eq st es2 hs] at h
      cases h
      exact genStep_finished_entries st es hs
    | yield r st2 =>
      rw [genRun_zero_yield st r st2 hs] at h
      cases h
  | succ fuel ih =>
    intro st rs es h
    cases hs : genStep st with
    | finished es2 =>
      rw [genRun_succ_eq fuel st es2 hs] at h
      cases h
      exact genStep_finished_entries st es hs
    | yield r st2 =>
      rw [genRun_succ_yield fuel st r st2 hs] at h
      cases hg : genRun fuel st2 with
      | none =>
        rw [hg] at h
        cases h
      | some p =>
        obtain ⟨rs2, es2⟩ := p
        rw [hg] at h
        cases h
        have h2 := ih st2 rs2 es2 hg
        obtain ⟨front, e, rest, j, n, h1, hle, hjl, hr, hst2⟩ := genStep_yield_struct st r st2 hs
        rw [hst2] at h2
        rw [h1, h2]
        simp [resetEntry]

theorem genStep_yield_invariant (st : GenState) (r : SearchResult) (st2 : GenState)
    (h : genStep st = .yield r st2) : resultInvariant r := by
  obtain ⟨front, e, rest, j, n, h1, hle, hjl, hr, hst2⟩ := genStep_yield_struct st r st2 h
  subst hr
  exact jsSubstring_take_drop st.line j n hjl

theorem genRun_invariant :
    ∀ fuel st rs es, genRun fuel st = some (rs, es) → ∀ r ∈ rs, resultInvariant r := by
  intro fuel
  induction fuel with
  | zero =>
    intro st rs es h r hm
    cases hs : genStep st with
    | finished es2 =>
      rw [genRun_zero_eq st es2 hs] at h
      cases h
      cases hm
    | yield r2 st2 =>
      rw [genRun_zero_yield st r2 st2 hs] at h
      cases h
  | succ fuel ih =>
    intro st rs es h r hm
    cases hs : genStep st with
    | finished es2 =>
      rw [genRun_succ_eq fuel st es2 hs] at h
      cases h
      cases hm
    | yield r2 st2 =>
      rw [genRun_succ_yield fuel st r2 st2 hs] at h
      cases hg : genRun fuel st2 with
      | none =>
        rw [hg] at h
        cases h
      | some p =>
        obtain ⟨rs2, es2⟩ := p
        rw [hg] at h
        cases h
        cases hm with
        | head => exact genStep_yield_invariant st r st2 hs
        | tail _ hm2 => exact ih st2 rs2 es2 hg r hm2

theorem genTake_invariant :
    ∀ count st, ∀ r ∈ (genTake count st).1, resultInvariant r := by
  intro count
  induction count with
  | zero =>
    intro st r hm
    rw [genTake] at hm
    cases hm
  | succ c ih =>
    intro st r hm
    rw [genTake] at hm
    cases hs : genStep st with
    | finished es =>
      rw [hs] at hm
      cases hm
    | yield r2 st2 =>
      rw [hs] at hm
      simp only [List.mem_cons] at hm
      cases hm with
      | inl he =>
        subst he
        exact genStep_yield_invariant st r st2 hs
      | inr hm2 => exact ih st2 r hm2

theorem genRun_fixed (st : GenState) (r : SearchResult) (h : genStep st = .yield r st) :
    ∀ fuel, genRun fuel st = none := by
  intro fuel
  induction fuel with
  | zero => exact genRun_zero_yield st r st h
  | succ fuel ih =>
    rw [genRun_succ_yield fuel st r st h, ih]
    rfl

theorem regExpNew_ok (p : Str) (ic : Bool) (r : JsRegExp) (h : regExpNew p ic = .ok r) :
    r.source = p ∧ r.ignoreCase = ic ∧ r.lastIndex = 0 := by
  unfold regExpNew at h
  split at h
  · cases h
  · split at h
    · cases h
      exact ⟨rfl, rfl, rfl⟩
    · cases h

theorem compileEntries_patterns :
    ∀ ps cs es, compileEntries ps cs = .ok es → es.map CompiledEntry.pattern = ps := by
  intro ps
  induction ps with
  | nil =>
    intro cs es h
    rw [compileEntries] at h
    cases h
    rfl
  | cons p rest ih =>
    intro cs es h
    rw [compileEntries] at h
    cases hr : regExpNew p (!cs) with
    | error e =>
      rw [hr] at h
      cases h
    | ok r =>
      rw [hr] at h
      cases hc : compileEntries rest cs with
      | error e =>
        rw [hc] at h
        cases h
      | ok es2 =>
        rw [hc] at h
        cases h
        simp [ih cs es2 hc]

theorem compileEntries_reset :
    ∀ ps cs es, compileEntries ps cs = .ok es → es.map resetEntry = es := by
  intro ps
  induction ps with
  | nil =>
    intro cs es h
    rw [compileEntries] at h
    cases h
    rfl
  | cons p rest ih =>
    intro cs es h
    rw [compileEntries] at h
    cases hr : regExpNew p (!cs) with
    | error e =>
      rw [hr] at h
      cases h
    | ok r =>
      rw [hr] at h
      cases hc : compileEntries rest cs with
      | error e =>
        rw [hc] at h
        cases h
      | ok es2 =>
        rw [hc] at h
        cases h
        have hz := (regExpNew_ok p (!cs) r hr).2.2
        have hrr : resetEntry ⟨p, r⟩ = ⟨p, r⟩ := by
          unfold resetEntry
          cases r
          simp at hz
          simp [hz]
        simp [hrr, ih cs es2 hc]

theorem RegExpMaps.get_set_same (m : RegExpMaps) (cs : Bool) (es : List CompiledEntry) :
    (m.set cs es).get cs = some es := by
  cases cs <;> rfl

theorem RegExpMaps.set_set (m : RegExpMaps) (cs : Bool) (e1 e2 : List CompiledEntry) :
    (m.set cs e1).set cs e2 = m.set cs e2 := by
  cases cs <;> rfl

theorem createRegExpMap_hit (d : Dictionary) (maps : RegExpMaps) (cs : Bool)
    (entries : List CompiledEntry) (h : maps.get cs = some entries) :
    d.createRegExpMap maps cs = .ok (entries, maps) := by
  rw [Dictionary.createRegExpMap, h]

theorem searchAll_inv (d : Dictionary) (maps : RegExpMaps) (cs : Bool) (line : Str)
    (ln fuel : Nat) (rs : List SearchResult) (mapsB : RegExpMaps)
    (h : d.searchAll maps cs line ln fuel = .ok (some (rs, mapsB))) :
    ∃ entries maps2 final, d.createRegExpMap maps cs = .ok (entries, maps2) ∧
      genRun fuel ⟨d, line, ln, [], entries⟩ = some (rs, final) ∧
      mapsB = maps2.set cs final := by
  rw [Dictionary.searchAll] at h
  split at h
  next e heq => cases h
  next entries maps2 heq =>
    split at h
    next heq2 => cases h
    next rs2 final heq2 =>
      cases h
      exact ⟨entries, maps2, final, heq, heq2, rfl⟩

theorem searchAll_run (d : Dictionary) (maps : RegExpMaps) (cs : Bool) (line : Str)
    (ln fuel : Nat) (entries : List CompiledEntry) (maps2 : RegExpMaps)
    (rs : List SearchResult) (final : List CompiledEntry)
    (hc : d.createRegExpMap maps cs = .ok (entries, maps2))
    (hg : genRun fuel ⟨d, line, ln, [], entries⟩ = some (rs, final)) :
    d.searchAll maps cs line ln fuel = .ok (some (rs, maps2.set cs final)) := by
  rw [Dictionary.searchAll, hc]
  show (match genRun fuel ⟨d, line, ln, [], entries⟩ with
    | none => Except.ok none
    | some (rs, final) => Except.ok (some (rs, maps2.set cs final))) =
    Except.ok (some (rs, maps2.set cs final))
  rw [hg]

/-- Claim-support lemma: a completed search from a freshly compiled map
leaves every regexp reset, so the cache ends exactly at the compiled map,
and any repeat of the run is byte-identical. -/
theorem searchAll_repeat (d : Dictionary) (maps : RegExpMaps) (cs : Bool) (line : Str)
    (ln fuel : Nat) (rs : List SearchResult) (mapsB : RegExpMaps)
    (hfresh : maps.get cs = none)
    (h : d.searchAll maps cs line ln fuel = .ok (some (rs, mapsB))) :
    d.searchAll mapsB cs line ln fuel = .ok (some (rs, mapsB)) := by
  obtain ⟨entries, maps2, final, hc, hg, hB⟩ :=
    searchAll_inv d maps cs line ln fuel rs mapsB h
  rw [Dictionary.createRegExpMap, hfresh] at hc
  split at hc
  next es2 heq => cases heq
  next =>
    split at hc
    · cases hc
    next es hcomp =>
      simp only [Except.ok.injEq, Prod.mk.injEq] at hc
      obtain ⟨he1, he2⟩ := hc
      subst he1
      subst he2
      have hfin : final = es := by
        have h2 := genRun_entries fuel ⟨d, line, ln, [], es⟩ rs final hg
        simpa [compileEntries_reset d.patterns cs es hcomp] using h2
      subst hfin
      subst hB
      have hhit : ((maps.set cs final).set cs final).get cs = some final :=
        RegExpMaps.get_set_same _ cs final
      have hrun := searchAll_run d ((maps.set cs final).set cs final) cs line ln fuel final
        ((maps.set cs final).set cs final) rs final
        (createRegExpMap_hit _ _ _ _ hhit) hg
      simpa [RegExpMaps.set_set] using hrun

theorem map_reset_pattern (es : List CompiledEntry) :
    (es.map resetEntry).map CompiledEntry.pattern = es.map CompiledEntry.pattern := by
  induction es with
  | nil => rfl
  | cons e rest ih => simp [resetEntry, ih]

theorem RegExpMaps.get_set_other (m : RegExpMaps) (cs cs2 : Bool)
    (es : List CompiledEntry) (h : cs ≠ cs2) : (m.set cs es).get cs2 = m.get cs2 := by
  cases cs <;> cases cs2 <;> simp_all [RegExpMaps.set, RegExpMaps.get]



theorem GenBlocks.empty (d : Dictionary) (line : Str) (ln : Nat) :
    ∀ entries, GenBlocks d line ln entries [] := by
  intro entries
  induction entries with
  | nil => exact GenBlocks.nil
  | cons e rest ih =>
    have h := GenBlocks.cons e rest [] [] (by intro r hr; cases hr)
      (by intro r hr; cases hr) List.Pairwise.nil ih
    simpa using h

theorem GenBlocks.prependFront (d : Dictionary) (line : Str) (ln : Nat) :
    ∀ front entries rs, GenBlocks d line ln entries rs →
      GenBlocks d line ln (front ++ entries) rs := by
  intro front
  induction front with
  | nil => intro entries rs h; simpa using h
  | cons e rest ih =>
    intro entries rs h
    have h2 := GenBlocks.cons e (rest ++ entries) [] rs (by intro r hr; cases hr)
      (by intro r hr; cases hr) List.Pairwise.nil (ih entries rs h)
    simpa using h2

theorem genRun_blocks :
    ∀ fuel st rs es, genRun fuel st = some (rs, es) →
      GenBlocks st.dict st.line st.lineNumber st.todo rs := by
  intro fuel
  induction fuel with
  | zero =>
    intro st rs es h
    cases hs : genStep st with
    | finished es2 =>
      rw [genRun_zero_eq st es2 hs] at h
      cases h
      exact GenBlocks.empty _ _ _ _
    | yield r st2 =>
      rw [genRun_zero_yield st r st2 hs] at h
      cases h
  | succ fuel ih =>
    intro st rs es h
    cases hs : genStep st with
    | finished es2 =>
      rw [genRun_succ_eq fuel st es2 hs] at h
      cases h
      exact GenBlocks.empty _ _ _ _
    | yield r st2 =>
      rw [genRun_succ_yield fuel st r st2 hs] at h
      cases hg : genRun fuel st2 with
      | none =>
        rw [hg] at h
        cases h
      | some p =>
        obtain ⟨rs2, es2⟩ := p
        rw [hg] at h
        cases h
        obtain ⟨front, e, rest, j, n, h1, hle, hjl, hr, hst2⟩ := genStep_yield_struct st r st2 hs
        have hblocks2 := ih st2 rs2 es2 hg
        rw [hst2] at hblocks2
        simp only at hblocks2
        cases hblocks2 with
        | cons _ _ block rs3 hfields hlb hcols hrest =>
          rw [h1]
          apply GenBlocks.prependFront
          have hcons := GenBlocks.cons e rest (r :: block) rs3 ?hfields ?hlb ?hcols hrest
          · simpa using hcons
          case hfields =>
            intro r2 hm
            cases hm with
            | head => rw [hr]; exact ⟨rfl, rfl, rfl, rfl⟩
            | tail _ hm2 =>
              have hf := hfields r2 hm2
              exact ⟨hf.1, hf.2.1, hf.2.2.1, hf.2.2.2⟩
          case hlb =>
            intro r2 hm
            cases hm with
            | head => rw [hr]; exact hle
            | tail _ hm2 =>
              have hb := hlb r2 hm2
              simp only at hb
              omega
          case hcols =>
            rw [List.pairwise_cons]
            constructor
            · intro r2 hm2
              have hb := hlb r2 hm2
              simp only at hb
              rw [hr]
              simp only
              omega
            · exact hcols



theorem idxOf_cons_self {α : Type} [DecidableEq α] (x : α) (l : List α) :
    idxOf x (x :: l) = 0 := by
  simp [idxOf]

theorem idxOf_cons_ne {α : Type} [DecidableEq α] (x y : α) (l : List α) (h : y ≠ x) :
    idxOf x (y :: l) = idxOf x l + 1 := by
  simp [idxOf, h]



theorem genBlocks_pairwise (d : Dictionary) (line : Str) (ln : Nat) :
    ∀ entries rs, GenBlocks d line ln entries rs →
      (entries.map CompiledEntry.pattern).Nodup →
      (∀ r ∈ rs, r.dictionary = d ∧ r.line = line ∧ r.lineNumber = ln ∧
        r.pattern ∈ entries.map CompiledEntry.pattern) ∧
      rs.Pairwise (patColLe (entries.map CompiledEntry.pattern)) := by
  intro entries rs h
  induction h with
  | nil =>
    intro _
    exact ⟨(by intro r hr; cases hr), List.Pairwise.nil⟩
  | cons e rest block rs2 hfields hlb hcols hrest ih =>
    intro hnd
    simp only [List.map_cons, List.nodup_cons] at hnd
    obtain ⟨hnotin, hnd2⟩ := hnd
    obtain ⟨ihmem, ihpw⟩ := ih hnd2
    constructor
    · intro r hr
      rw [List.mem_append] at hr
      cases hr with
      | inl hb =>
        have hf := hfields r hb
        exact ⟨hf.1, hf.2.1, hf.2.2.1, by rw [hf.2.2.2]; simp⟩
      | inr h2 =>
        have hf := ihmem r h2
        exact ⟨hf.1, hf.2.1, hf.2.2.1, by simp [hf.2.2.2]⟩
    · rw [List.pairwise_append]
      refine ⟨?_, ?_, ?_⟩
      · refine hcols.imp_of_mem ?_
        intro a b ha hb hab
        right
        have hpa := (hfields a ha).2.2.2
        have hpb := (hfields b hb).2.2.2
        rw [hpa, hpb]
        exact ⟨rfl, hab⟩
      · refine ihpw.imp_of_mem ?_
        intro a b ha hb hab
        have hpa := (ihmem a ha).2.2.2
        have hpb := (ihmem b hb).2.2.2
        have hna : a.pattern ≠ e.pattern := by
          intro hx
          rw [hx] at hpa
          exact hnotin hpa
        have hnb : b.pattern ≠ e.pattern := by
          intro hx
          rw [hx] at hpb
          exact hnotin hpb
        have hia := idxOf_cons_ne a.pattern e.pattern
          (rest.map CompiledEntry.pattern) (fun hx => hna hx.symm)
        have hib := idxOf_cons_ne b.pattern e.pattern
          (rest.map CompiledEntry.pattern) (fun hx => hnb hx.symm)
        unfold patColLe at hab ⊢
        simp only [List.map_cons]
        rw [hia, hib]
        omega
      · intro a ha b hb
        have hpa := (hfields a ha).2.2.2
        have hpb := (ihmem b hb).2.2.2
        have hnb : b.pattern ≠ e.pattern := by
          intro hx
          rw [hx] at hpb
          exact hnotin hpb
        have hib := idxOf_cons_ne b.pattern e.pattern
          (rest.map CompiledEntry.pattern) (fun hx => hnb hx.symm)
        unfold patColLe
        left
        simp only [List.map_cons]
        rw [hpa, idxOf_cons_self, hib]
        omega



theorem mapsWF_empty (d : Dictionary) : MapsWF d RegExpMaps.empty := by
  intro cs entries h
  cases cs <;> cases h

theorem createRegExpMap_patterns (d : Dictionary) (maps : RegExpMaps) (cs : Bool)
    (entries : List CompiledEntry) (maps2 : RegExpMaps)
    (hwf : MapsWF d maps)
    (h : d.createRegExpMap maps cs = .ok (entries, maps2)) :
    entries.map CompiledEntry.pattern = d.patterns ∧
      (maps2 = maps ∨ maps2 = maps.set cs entries) := by
  rw [Dictionary.createRegExpMap] at h
  split at h
  next es2 heq =>
    cases h
    exact ⟨hwf cs entries heq, Or.inl rfl⟩
  next heq =>
    split at h
    · cases h
    next es hcomp =>
      simp only [Except.ok.injEq, Prod.mk.injEq] at h
      obtain ⟨h1, h2⟩ := h
      constructor
      · rw [← h1]
        exact compileEntries_patterns d.patterns cs es hcomp
      · right
        rw [← h2, h1]

theorem searchAll_ordered (d : Dictionary) (maps : RegExpMaps) (cs : Bool) (line : Str)
    (ln fuel : Nat) (rs : List SearchResult) (mapsB : RegExpMaps)
    (hwf : MapsWF d maps) (hnd : d.patterns.Nodup)
    (h : d.searchAll maps cs line ln fuel = .ok (some (rs, mapsB))) :
    (∀ r ∈ rs, r.dictionary = d ∧ r.line = line ∧ r.lineNumber = ln) ∧
      rs.Pairwise (patColLe d.patterns) ∧ MapsWF d mapsB := by
  obtain ⟨entries, maps2, final, hc, hg, hB⟩ :=
    searchAll_inv d maps cs line ln fuel rs mapsB h
  obtain ⟨hpats, hm2⟩ := createRegExpMap_patterns d maps cs entries maps2 hwf hc
  have hblocks := genRun_blocks fuel ⟨d, line, ln, [], entries⟩ rs final hg
  simp only at hblocks
  have hnd2 : (entries.map CompiledEntry.pattern).Nodup := by rw [hpats]; exact hnd
  obtain ⟨hmem, hpw⟩ := genBlocks_pairwise d line ln entries rs hblocks hnd2
  refine ⟨?_, ?_, ?_⟩
  · intro r hr
    have hf := hmem r hr
    exact ⟨hf.1, hf.2.1, hf.2.2.1⟩
  · rw [hpats] at hpw
    exact hpw
  · have hfinal : final.map CompiledEntry.pattern = d.patterns := by
      have h2 := genRun_entries fuel ⟨d, line, ln, [], entries⟩ rs final hg
      simp only at h2
      rw [h2]
      simpa [map_reset_pattern] using hpats
    intro cs2 entries2 hget
    subst hB
    by_cases hcs : cs = cs2
    · subst hcs
      rw [RegExpMaps.get_set_same] at hget
      cases hget
      exact hfinal
    · rw [RegExpMaps.get_set_other maps2 cs cs2 final hcs] at hget
      cases hm2 with
      | inl he => subst he; exact hwf cs2 entries2 hget
      | inr he =>
        subst he
        rw [RegExpMaps.get_set_other maps cs cs2 entries hcs] at hget
        exact hwf cs2 entries2 hget

theorem searchLineDicts_ordered :
    ∀ store cs line ln fuel rs store2,
      searchLineDicts store cs line ln fuel = .ok (some (rs, store2)) →
      (∀ p ∈ store, MapsWF p.1 p.2) →
      (store.map Prod.fst).Nodup →
      (∀ d ∈ store.map Prod.fst, d.patterns.Nodup) →
      store2.map Prod.fst = store.map Prod.fst ∧
      (∀ p ∈ store2, MapsWF p.1 p.2) ∧
      (∀ r ∈ rs, r.line = line ∧ r.lineNumber = ln ∧ r.dictionary ∈ store.map Prod.fst) ∧
      rs.Pairwise (dictColLe (store.map Prod.fst)) := by
  intro store
  induction store with
  | nil =>
    intro cs line ln fuel rs store2 h _ _ _
    rw [searchLineDicts] at h
    cases h
    exact ⟨rfl, (by intro p hp; cases hp), (by intro r hr; cases hr), List.Pairwise.nil⟩
  | cons p store ih =>
    obtain ⟨d, m⟩ := p
    intro cs line ln fuel rs store2 h hwf hnd hpnd
    rw [searchLineDicts] at h
    split at h
    next heq => cases h
    next heq => cases h
    next rsd m2 heq =>
      split at h
      next heq2 => cases h
      next heq2 => cases h
      next rs2 store2b heq2 =>
        simp only [Except.ok.injEq, Option.some.injEq, Prod.mk.injEq] at h
        obtain ⟨hrs, hst⟩ := h
        have hwfd : MapsWF d m := hwf (d, m) (by simp)
        have hndd : d.patterns.Nodup := hpnd d (by simp)
        obtain ⟨hfields, hpw, hwf2⟩ :=
          searchAll_ordered d m cs line ln fuel rsd m2 hwfd hndd heq
        simp only [List.map_cons, List.nodup_cons] at hnd
        obtain ⟨hnotin, hnd2⟩ := hnd
        obtain ⟨ihfst, ihwf, ihmem, ihpw⟩ :=
          ih cs line ln fuel rs2 store2b heq2
            (by intro q hq; exact hwf q (List.mem_cons_of_mem _ hq))
            hnd2
            (by intro d2 hd2; exact hpnd d2 (List.mem_cons_of_mem _ hd2))
        subst hrs
        subst hst
        refine ⟨?_, ?_, ?_, ?_⟩
        · simp [ihfst]
        · intro q hq
          cases hq with
          | head => exact hwf2
          | tail _ hq2 => exact ihwf q hq2
        · intro r hr
          rw [List.mem_append] at hr
          cases hr with
          | inl hb =>
            have hf := hfields r hb
            exact ⟨hf.2.1, hf.2.2, by rw [hf.1]; simp⟩
          | inr h2 =>
            have hf := ihmem r h2
            exact ⟨hf.1, hf.2.1, by simp [hf.2.2]⟩
        · rw [List.pairwise_append]
          refine ⟨?_, ?_, ?_⟩
          · refine hpw.imp_of_mem ?_
            intro a b ha hb hab
            have hda := (hfields a ha).1
            have hdb := (hfields b hb).1
            unfold dictColLe
            right
            simp only [List.map_cons]
            rw [hda, hdb, idxOf_cons_self]
            exact ⟨rfl, hab⟩
          · refine ihpw.imp_of_mem ?_
            intro a b ha hb hab
            have hda := (ihmem a ha).2.2
            have hdb := (ihmem b hb).2.2
            have hna : a.dictionary ≠ d := by
              intro hx
              rw [hx] at hda
              exact hnotin hda
            have hnb : b.dictionary ≠ d := by
              intro hx
              rw [hx] at hdb
              exact hnotin hdb
            have hia := idxOf_cons_ne a.dictionary d
              (store.map Prod.fst) (fun hx => hna hx.symm)
            have hib := idxOf_cons_ne b.dictionary d
              (store.map Prod.fst) (fun hx => hnb hx.symm)
            unfold dictColLe at hab ⊢
            simp only [List.map_cons]
            rw [hia, hib]
            rcases hab with h1 | ⟨h1, h2⟩
            · left
              omega
            · right
              exact ⟨by omega, h2⟩
          · intro a ha b hb
            have hda := (hfields a ha).1
            have hdb := (ihmem b hb).2.2
            have hnb : b.dictionary ≠ d := by
              intro hx
              rw [hx] at hdb
              exact hnotin hdb
            have hib := idxOf_cons_ne b.dictionary d
              (store.map Prod.fst) (fun hx => hnb hx.symm)
            unfold dictColLe
            left
            simp only [List.map_cons]
            rw [hda, idxOf_cons_self, hib]
            omega

theorem searchLine_noFilter (store : DictStore) (cs : Bool) (line : Str) (ln fuel : Nat) :
    searchLine store ⟨cs, none⟩ line ln fuel = searchLineDicts store cs line ln fuel := by
  rw [searchLine]

theorem searchAllLines_ordered :
    ∀ lines ln store cs fuel rs store2,
      searchAllLines lines ln store ⟨cs, none⟩ fuel = .ok (some (rs, store2)) →
      (∀ p ∈ store, MapsWF p.1 p.2) →
      (store.map Prod.fst).Nodup →
      (∀ d ∈ store.map Prod.fst, d.patterns.Nodup) →
      store2.map Prod.fst = store.map Prod.fst ∧
      (∀ p ∈ store2, MapsWF p.1 p.2) ∧
      (∀ r ∈ rs, ln ≤ r.lineNumber) ∧
      rs.Pairwise (resultOrder (store.map Prod.fst)) := by
  intro lines
  induction lines with
  | nil =>
    intro ln store cs fuel rs store2 h _ _ _
    rw [searchAllLines] at h
    cases h
    exact ⟨rfl, (by intro p hp; exact (by assumption : ∀ p ∈ store, MapsWF p.1 p.2) p hp),
      (by intro r hr; cases hr), List.Pairwise.nil⟩
  | cons line lines ih =>
    intro ln store cs fuel rs store2 h hwf hnd hpnd
    rw [searchAllLines, searchLine_noFilter] at h
    split at h
    next heq => cases h
    next heq => cases h
    next rsL storeB heq =>
      split at h
      next heq2 => cases h
      next heq2 => cases h
      next rsR store2b heq2 =>
        simp only [Except.ok.injEq, Option.some.injEq, Prod.mk.injEq] at h
        obtain ⟨hrs, hst⟩ := h
        obtain ⟨hBfst, hBwf, hLmem, hLpw⟩ :=
          searchLineDicts_ordered store cs line ln fuel rsL storeB heq hwf hnd hpnd
        obtain ⟨ihfst, ihwf, ihln, ihpw⟩ :=
          ih (ln + 1) storeB cs fuel rsR store2b heq2 hBwf
            (by rw [hBfst]; exact hnd)
            (by rw [hBfst]; exact hpnd)
        subst hrs
        subst hst
        rw [hBfst] at ihfst ihpw
        refine ⟨ihfst, ihwf, ?_, ?_⟩
        · intro r hr
          rw [List.mem_append] at hr
          cases hr with
          | inl hb =>
            have hf := hLmem r hb
            omega
          | inr h2 =>
            have hf := ihln r h2
            omega
        · rw [List.pairwise_append]
          refine ⟨?_, ihpw, ?_⟩
          · refine hLpw.imp_of_mem ?_
            intro a b ha hb hab
            have hla := (hLmem a ha).2.1
            have hlb := (hLmem b hb).2.1
            unfold resultOrder
            right
            rw [hla, hlb]
            exact ⟨rfl, hab⟩
          · intro a ha b hb
            have hla := (hLmem a ha).2.1
            have hlb := ihln b hb
            unfold resultOrder
            left
            omega

theorem searchAll_invariant (d : Dictionary) (maps : RegExpMaps) (cs : Bool) (line : Str)
    (ln fuel : Nat) (rs : List SearchResult) (mapsB : RegExpMaps)
    (h : d.searchAll maps cs line ln fuel = .ok (some (rs, mapsB))) :
    ∀ r ∈ rs, resultInvariant r := by
  obtain ⟨entries, maps2, final, hc, hg, hB⟩ :=
    searchAll_inv d maps cs line ln fuel rs mapsB h
  exact genRun_invariant fuel ⟨d, line, ln, [], entries⟩ rs final hg

theorem searchLineDicts_invariant :
    ∀ store cs line ln fuel rs store2,
      searchLineDicts store cs line ln fuel = .ok (some (rs, store2)) →
      ∀ r ∈ rs, resultInvariant r := by
  intro store
  induction store with
  | nil =>
    intro cs line ln fuel rs store2 h r hr
    rw [searchLineDicts] at h
    cases h
    cases hr
  | cons p store ih =>
    obtain ⟨d, m⟩ := p
    intro cs line ln fuel rs store2 h r hr
    rw [searchLineDicts] at h
    split at h
    next heq => cases h
    next heq => cases h
    next rsd m2 heq =>
      split at h
      next heq2 => cases h
      next heq2 => cases h
      next rs2 store2b heq2 =>
        simp only [Except.ok.injEq, Option.some.injEq, Prod.mk.injEq] at h
        obtain ⟨hrs, hst⟩ := h
        subst hrs
        rw [List.mem_append] at hr
        cases hr with
        | inl hb => exact searchAll_invariant d m cs line ln fuel rsd m2 heq r hb
        | inr h2 => exact ih cs line ln fuel rs2 store2b heq2 r h2

theorem searchLine_invariant (store : DictStore) (options : SearchOptions) (line : Str)
    (ln fuel : Nat) (rs : List SearchResult) (store2 : DictStore)
    (h : searchLine store options line ln fuel = .ok (some (rs, store2))) :
    ∀ r ∈ rs, resultInvariant r := by
  rw [searchLine] at h
  split at h
  · cases h
  · exact searchLineDicts_invariant store options.caseSensitive line ln fuel rs store2 h

theorem searchAllLines_invariant :
    ∀ lines ln store options fuel rs store2,
      searchAllLines lines ln store options fuel = .ok (some (rs, store2)) →
      ∀ r ∈ rs, resultInvariant r := by
  intro lines
  induction lines with
  | nil =>
    intro ln store options fuel rs store2 h r hr
    rw [searchAllLines] at h
    cases h
    cases hr
  | cons line lines ih =>
    intro ln store options fuel rs store2 h r hr
    rw [searchAllLines] at h
    split at h
    next heq => cases h
    next heq => cases h
    next rsL storeB heq =>
      split at h
      next heq2 => cases h
      next heq2 => cases h
      next rsR store2b heq2 =>
        simp only [Except.ok.injEq, Option.some.injEq, Prod.mk.injEq] at h
        obtain ⟨hrs, hst⟩ := h
        subst hrs
        rw [List.mem_append] at hr
        cases hr with
        | inl hb => exact searchLine_invariant store options line ln fuel rsL storeB heq r hb
        | inr h2 => exact ih (ln + 1) storeB options fuel rsR store2b heq2 r h2

theorem search_invariant (store : DictStore) (value : Option Str) (options : SearchOptions)
    (fuel : Nat) (rs : List SearchResult) (store2 : DictStore)
    (h : Searcherer.search store value options fuel = .ok (some (rs, store2))) :
    ∀ r ∈ rs, resultInvariant r := by
  cases value with
  | none =>
    rw [show Searcherer.search store none options fuel = .ok (some ([], store)) from rfl] at h
    cases h
    intro r hr
    cases hr
  | some v =>
    rw [show Searcherer.search store (some v) options fuel =
      (if v.isEmpty = true then .ok (some ([], store))
       else searchAllLines (splitLines v) 0 store options fuel) from rfl] at h
    by_cases hv : v.isEmpty
    · rw [if_pos hv] at h
      cases h
      intro r hr
      cases hr
    · rw [if_neg hv] at h
      exact searchAllLines_invariant (splitLines v) 0 store options fuel rs store2 h

theorem searchTake_invariant (d : Dictionary) (maps : RegExpMaps) (cs : Bool) (line : Str)
    (ln count : Nat) (rs : List SearchResult) (mapsB : RegExpMaps)
    (h : d.searchTake maps cs line ln count = .ok (rs, mapsB)) :
    ∀ r ∈ rs, resultInvariant r := by
  rw [Dictionary.searchTake] at h
  split at h
  next heq => cases h
  next entries maps2 heq =>
    simp only [Except.ok.injEq, Prod.mk.injEq] at h
    obtain ⟨hrs, hst⟩ := h
    intro r hr
    rw [← hrs] at hr
    exact genTake_invariant count ⟨d, line, ln, [], entries⟩ r hr

theorem splitLines_cons : ∀ v : Str, ∃ l ls, splitLines v = l :: ls := by
  intro v
  rw [splitLines.eq_def]
  split
  · exact ⟨[], [], rfl⟩
  · exact ⟨[], splitLines _, rfl⟩
  · exact ⟨[], splitLines _, rfl⟩
  · exact ⟨[], splitLines _, rfl⟩
  next c rest _ _ _ =>
    split
    · exact ⟨[c], [], rfl⟩
    next l ls _ => exact ⟨c :: l, ls, rfl⟩

theorem search_filter_typeError (store : DictStore) (v : Str) (f : Dictionary → Bool)
    (cs : Bool) (fuel : Nat) (hv : v ≠ []) :
    Searcherer.search store (some v) ⟨cs, some f⟩ fuel =
      .error (.typeError (strL "dictionaries.filter is not a function")) := by
  obtain ⟨c, rest, hv2⟩ : ∃ c rest, v = c :: rest := by
    cases v with
    | nil => exact absurd rfl hv
    | cons c r => exact ⟨c, r, rfl⟩
  subst hv2
  rw [show Searcherer.search store (some (c :: rest)) ⟨cs, some f⟩ fuel =
    searchAllLines (splitLines (c :: rest)) 0 store ⟨cs, some f⟩ fuel from rfl]
  obtain ⟨l, ls, hsplit⟩ := splitLines_cons (c :: rest)
  rw [hsplit, searchAllLines]
  have hsl : searchLine store ⟨cs, some f⟩ l 0 fuel =
      .error (.typeError (strL "dictionaries.filter is not a function")) := by
    rw [searchLine]
  rw [hsl]

theorem freshStore_fst (ds : List Dictionary) : (freshStore ds).map Prod.fst = ds := by
  induction ds with
  | nil => rfl
  | cons d ds ih =>
    simp only [freshStore, List.map_cons] at ih ⊢
    rw [ih]

theorem freshStore_wf (ds : List Dictionary) : ∀ p ∈ freshStore ds, MapsWF p.1 p.2 := by
  intro p hp
  unfold freshStore at hp
  rw [List.mem_map] at hp
  obtain ⟨d, _, hd⟩ := hp
  rw [← hd]
  exact mapsWF_empty d



theorem regExpNew_lparen (ic : Bool) :
    regExpNew (strL "(") ic = .error (.patternCompilation (strL "(")) := by
  cases ic <;> rfl

theorem compileEntries_lparen (cs : Bool) :
    compileEntries [strL "("] cs = .error (.patternCompilation (strL "(")) := by
  cases cs <;> rfl

theorem searchAll_badPattern (nm : Str) (maps : RegExpMaps) (cs : Bool) (line : Str)
    (ln fuel : Nat) (h : maps.get cs = none) :
    Dictionary.searchAll ⟨nm, [strL "("]⟩ maps cs line ln fuel =
      .error (.patternCompilation (strL "(")) := by
  rw [Dictionary.searchAll, Dictionary.createRegExpMap]
  simp only [h, compileEntries_lparen]

theorem search_badPattern (nm : Str) (v : Str) (cs : Bool) (fuel : Nat) (hv : v ≠ []) :
    Searcherer.search (freshStore [⟨nm, [strL "("]⟩]) (some v) ⟨cs, none⟩ fuel =
      .error (.patternCompilation (strL "(")) := by
  obtain ⟨c, rest, hv2⟩ : ∃ c rest, v = c :: rest := by
    cases v with
    | nil => exact absurd rfl hv
    | cons c r => exact ⟨c, r, rfl⟩
  subst hv2
  rw [show Searcherer.search (freshStore [⟨nm, [strL "("]⟩]) (some (c :: rest)) ⟨cs, none⟩ fuel =
    searchAllLines (splitLines (c :: rest)) 0 (freshStore [⟨nm, [strL "("]⟩])
      ⟨cs, none⟩ fuel from rfl]
  obtain ⟨l, ls, hsplit⟩ := splitLines_cons (c :: rest)
  rw [show freshStore [⟨nm, [strL "("]⟩] = [(⟨nm, [strL "("]⟩, RegExpMaps.empty)] from rfl]
  rw [hsplit, searchAllLines, searchLine_noFilter, searchLineDicts]
  have hbad := searchAll_badPattern nm RegExpMaps.empty cs l 0 fuel (by cases cs <;> rfl)
  simp only [hbad]

theorem parse_string_branch (raw s : Str) (defaults : DictionaryOptions)
    (h : jsonParse raw = .ok (.str s)) :
    Dictionary.parse (some raw) defaults =
      (Dictionary.new ⟨defaults.name, defaults.patterns⟩).map
        (fun d => .ok (some d)) := by
  simp only [Dictionary.parse, h, getProp, jsOr, jsTruthy]
  rfl

theorem parse_array_branch (raw : Str) (xs : List JsValue) (pats : List Str)
    (defaults : DictionaryOptions)
    (h : jsonParse raw = .ok (.arr xs)) (h2 : asStrings xs = some pats) :
    Dictionary.parse (some raw) defaults =
      some (.ok (some ⟨strL "<unknown>", insertionDedup pats⟩)) := by
  simp only [Dictionary.parse, h]
  have hset : setOfValue (.arr xs) = some (insertionDedup pats) := by
    simp [setOfValue, h2]
  rw [Dictionary.new]
  rw [show asStr (jsOrDefined (none : Option JsValue) (.str (strL "<unknown>"))) =
    some (strL "<unknown>") from rfl]
  rw [show jsOrDefined (some (JsValue.arr xs)) (.arr []) = .arr xs from rfl]
  rw [hset]
  rfl

theorem search_ordered (ds : List Dictionary) (v : Str) (cs : Bool) (fuel : Nat)
    (rs : List SearchResult)
    (hnd : ds.Nodup) (hpnd : ∀ d ∈ ds, d.patterns.Nodup)
    (h : searchOutcomeResults
      (Searcherer.search (freshStore ds) (some v) ⟨cs, none⟩ fuel) = some rs) :
    rs.Pairwise (resultOrder ds) := by
  cases hx : Searcherer.search (freshStore ds) (some v) ⟨cs, none⟩ fuel with
  | error e =>
    rw [hx] at h
    simp [searchOutcomeResults] at h
  | ok o =>
    cases o with
    | none =>
      rw [hx] at h
      simp [searchOutcomeResults] at h
    | some p =>
      obtain ⟨rs2, store2⟩ := p
      rw [hx] at h
      simp only [searchOutcomeResults, Option.some.injEq] at h
      subst h
      rw [show Searcherer.search (freshStore ds) (some v) ⟨cs, none⟩ fuel =
        (if v.isEmpty = true then .ok (some ([], freshStore ds))
         else searchAllLines (splitLines v) 0 (freshStore ds) ⟨cs, none⟩ fuel) from rfl] at hx
      by_cases hv : v.isEmpty
      · rw [if_pos hv] at hx
        cases hx
        exact List.Pairwise.nil
      · rw [if_neg hv] at hx
        obtain ⟨_, _, _, hpw⟩ :=
          searchAllLines_ordered (splitLines v) 0 (freshStore ds) cs fuel rs2 store2 hx
            (freshStore_wf ds)
            (by rw [freshStore_fst]; exact hnd)
            (by rw [freshStore_fst]; exact hpnd)
        rw [freshStore_fst] at hpw
        exact hpw

theorem genStep_aStar :
    genStep ⟨⟨strL "d", [strL "a*"]⟩, strL "b", 0, [],
        [⟨strL "a*", ⟨strL "a*", RE.cat (RE.star (RE.lit 'a')) RE.eps, true, 0⟩⟩]⟩ =
      .yield ⟨0, ⟨strL "d", [strL "a*"]⟩, strL "b", 0, [], strL "a*"⟩
        ⟨⟨strL "d", [strL "a*"]⟩, strL "b", 0, [],
         [⟨strL "a*", ⟨strL "a*", RE.cat (RE.star (RE.lit 'a')) RE.eps, true, 0⟩⟩]⟩ := by
  rfl

theorem searchAll_aStar (fuel : Nat) :
    Dictionary.searchAll ⟨strL "d", [strL "a*"]⟩ RegExpMaps.empty false (strL "b") 0 fuel =
      .ok none := by
  have hrun := genRun_fixed _ _ genStep_aStar fuel
  have hc : Dictionary.createRegExpMap ⟨strL "d", [strL "a*"]⟩ RegExpMaps.empty false =
      .ok ([⟨strL "a*", ⟨strL "a*", RE.cat (RE.star (RE.lit 'a')) RE.eps, true, 0⟩⟩],
        RegExpMaps.empty.set false
          [⟨strL "a*", ⟨strL "a*", RE.cat (RE.star (RE.lit 'a')) RE.eps, true, 0⟩⟩]) := by
    rfl
  rw [Dictionary.searchAll, hc]
  show (match genRun fuel ⟨⟨strL "d", [strL "a*"]⟩, strL "b", 0, [],
      [⟨strL "a*", ⟨strL "a*", RE.cat (RE.star (RE.lit 'a')) RE.eps, true, 0⟩⟩]⟩ with
    | none => Except.ok none
    | some (rs, final) => Except.ok (some (rs,
        (RegExpMaps.empty.set false
          [⟨strL "a*", ⟨strL "a*", RE.cat (RE.star (RE.lit 'a')) RE.eps, true, 0⟩⟩]).set
          false final))) = Except.ok none
  rw [hrun]

theorem search_aStar (fuel : Nat) :
    Searcherer.search (freshStore [⟨strL "d", [strL "a*"]⟩]) (some (strL "b"))
      ⟨false, none⟩ fuel = .ok none := by
  rw [show Searcherer.search (freshStore [⟨strL "d", [strL "a*"]⟩]) (some (strL "b"))
      ⟨false, none⟩ fuel =
    searchAllLines [strL "b"] 0 [(⟨strL "d", [strL "a*"]⟩, RegExpMaps.empty)]
      ⟨false, none⟩ fuel from rfl]
  rw [searchAllLines, searchLine_noFilter, searchLineDicts]
  simp only [searchAll_aStar fuel]

/-- Claim C1: the spec says that when options.filter is a predicate function
only the dictionaries satisfying it contribute Results. The code instead
calls the missing Set.prototype.filter method, so every search of a
non-empty text with a filter function throws a TypeError and returns no
result list at all. -/
theorem claim1_filter_bug (store : DictStore) (v : Str) (f : Dictionary → Bool)
    (cs : Bool) (fuel : Nat) (hv : v ≠ []) :
    Searcherer.search store (some v) ⟨cs, some f⟩ fuel =
      .error (.typeError (strL "dictionaries.filter is not a function")) :=
  search_filter_typeError store v f cs fuel hv

/-- Witness for C1: the exact scenario of the claim, two dictionaries named
a and b and a filter selecting a, throws the TypeError. -/
theorem claim1_filter_bug_witness :
    Searcherer.search (freshStore [⟨strL "a", [strL "x"]⟩, ⟨strL "b", [strL "x"]⟩])
      (some (strL "x")) ⟨false, some (fun d => d.name == strL "a")⟩ 5 =
      .error (.typeError (strL "dictionaries.filter is not a function")) :=
  claim1_filter_bug (freshStore [⟨strL "a", [strL "x"]⟩, ⟨strL "b", [strL "x"]⟩])
    (strL "x") (fun d => d.name == strL "a") false 5 (by decide)

/-- Counterexample to C2: parsing the JSON string literal with text foo and
empty defaults yields a Dictionary with the unknown-sentinel name and an
empty pattern set, not the single pattern foo the claim requires. -/
theorem claim2_counterexample :
    Dictionary.parse (some (strL "\"foo\"")) ⟨none, none⟩ =
      some (.ok (some ⟨strL "<unknown>", []⟩)) ∧
    (⟨strL "<unknown>", []⟩ : Dictionary).patterns ≠ [strL "foo"] :=
  ⟨rfl, by decide⟩

/-- Claim C2 as amended: a JSON string literal input falls through to the
generic object branch, where the decoded string has no name or patterns
properties, so the parsed Dictionary is built entirely from the caller
defaults and the decoded string never becomes a pattern. -/
theorem claim2_amended (raw s : Str) (defaults : DictionaryOptions)
    (h : jsonParse raw = .ok (.str s)) :
    Dictionary.parse (some raw) defaults =
      (Dictionary.new ⟨defaults.name, defaults.patterns⟩).map
        (fun d => .ok (some d)) :=
  parse_string_branch raw s defaults h

/-- Witness for the amended C2 at the input of the claim. -/
theorem claim2_amended_witness :
    Dictionary.parse (some (strL "\"foo\"")) ⟨some (.str (strL "nm")), none⟩ =
      (Dictionary.new ⟨some (.str (strL "nm")), none⟩).map
        (fun d => .ok (some d)) :=
  claim2_amended (strL "\"foo\"") (strL "foo") ⟨some (.str (strL "nm")), none⟩ rfl

/-- Claim C3: the spec says every Dictionary.search sequence is finite, even
for patterns such as the starred one that match the empty string. In the
code an empty match leaves the cached global regexp's lastIndex unchanged,
so the while-loop yields the empty match at column 0 forever: for the
dictionary with pattern a-star on line b, no amount of consumption ever
completes, at the dictionary level and through Searcherer.search alike. -/
theorem claim3_infinite_loop :
    (∀ fuel, Dictionary.searchAll ⟨strL "d", [strL "a*"]⟩ RegExpMaps.empty false
      (strL "b") 0 fuel = .ok none) ∧
    (∀ fuel, Searcherer.search (freshStore [⟨strL "d", [strL "a*"]⟩]) (some (strL "b"))
      ⟨false, none⟩ fuel = .ok none) :=
  ⟨searchAll_aStar, search_aStar⟩

/-- Claim C4: the spec says partial consumption has no side effect on later
calls. In the code the compiled regexp is cached with its mutated lastIndex:
after consuming one result of pattern a on line aa and abandoning the
generator, the cache holds lastIndex 1, and the next full search returns
only the match at column 1, while a fresh run returns columns 0 and 1. -/
theorem claim4_stale_lastIndex :
    takeOutcomeResults (Dictionary.searchTake ⟨strL "d", [strL "a"]⟩ RegExpMaps.empty
        false (strL "aa") 0 1) =
      some [⟨0, ⟨strL "d", [strL "a"]⟩, strL "aa", 0, strL "a", strL "a"⟩] ∧
    dictOutcomeResults (Dictionary.searchAll ⟨strL "d", [strL "a"]⟩
        (takeOutcomeMaps (Dictionary.searchTake ⟨strL "d", [strL "a"]⟩ RegExpMaps.empty
          false (strL "aa") 0 1) RegExpMaps.empty)
        false (strL "aa") 0 5) =
      some [⟨1, ⟨strL "d", [strL "a"]⟩, strL "aa", 0, strL "a", strL "a"⟩] ∧
    dictOutcomeResults (Dictionary.searchAll ⟨strL "d", [strL "a"]⟩ RegExpMaps.empty
        false (strL "aa") 0 5) =
      some [⟨0, ⟨strL "d", [strL "a"]⟩, strL "aa", 0, strL "a", strL "a"⟩,
            ⟨1, ⟨strL "d", [strL "a"]⟩, strL "aa", 0, strL "a", strL "a"⟩] :=
  ⟨rfl, rfl, rfl⟩

/-- Claim C5: two successive full consumptions of dictionary.search on the
same line and mode yield identical outcomes. Starting from a cache with no
compiled map for the mode, a completed first call leaves every regexp reset
to lastIndex 0, so the second call, reusing the cached matchers, returns
the very same result list and leaves the cache unchanged. -/
theorem claim5_idempotent (d : Dictionary) (maps : RegExpMaps) (cs : Bool) (line : Str)
    (ln fuel : Nat)
    (hfresh : maps.get cs = none)
    (hdone : (dictOutcomeResults (d.searchAll maps cs line ln fuel)).isSome = true) :
    d.searchAll (dictOutcomeMaps (d.searchAll maps cs line ln fuel) maps) cs line ln fuel
      = d.searchAll maps cs line ln fuel := by
  cases hx : d.searchAll maps cs line ln fuel with
  | error e =>
    rw [hx] at hdone
    simp [dictOutcomeResults] at hdone
  | ok o =>
    cases o with
    | none =>
      rw [hx] at hdone
      simp [dictOutcomeResults] at hdone
    | some p =>
      obtain ⟨rs, mapsB⟩ := p
      rw [show dictOutcomeMaps (Except.ok (some (rs, mapsB))) maps = mapsB from rfl]
      exact searchAll_repeat d maps cs line ln fuel rs mapsB hfresh hx

/-- Witness for C5 at a concrete dictionary, line and mode. -/
theorem claim5_idempotent_witness :
    Dictionary.searchAll ⟨strL "w", [strL "cat"]⟩
      (dictOutcomeMaps (Dictionary.searchAll ⟨strL "w", [strL "cat"]⟩ RegExpMaps.empty
        false (strL "cat cat") 0 5) RegExpMaps.empty)
      false (strL "cat cat") 0 5 =
    Dictionary.searchAll ⟨strL "w", [strL "cat"]⟩ RegExpMaps.empty false
      (strL "cat cat") 0 5 :=
  claim5_idempotent ⟨strL "w", [strL "cat"]⟩ RegExpMaps.empty false (strL "cat cat")
    0 5 rfl (by decide)

/-- Claim C6: for every Result of Dictionary.search, of a partial
consumption, or of Searcherer.search, the substring of the Result's line
from columnNumber extending for the match's length equals the match. -/
theorem claim6_substring_invariant :
    (∀ d maps cs line ln fuel rs,
      dictOutcomeResults (Dictionary.searchAll d maps cs line ln fuel) = some rs →
      ∀ r ∈ rs, resultInvariant r) ∧
    (∀ d maps cs line ln count rs,
      takeOutcomeResults (Dictionary.searchTake d maps cs line ln count) = some rs →
      ∀ r ∈ rs, resultInvariant r) ∧
    (∀ store value options fuel rs,
      searchOutcomeResults (Searcherer.search store value options fuel) = some rs →
      ∀ r ∈ rs, resultInvariant r) := by
  refine ⟨?_, ?_, ?_⟩
  · intro d maps cs line ln fuel rs h
    cases hx : Dictionary.searchAll d maps cs line ln fuel with
    | error e =>
      rw [hx] at h
      simp [dictOutcomeResults] at h
    | ok o =>
      cases o with
      | none =>
        rw [hx] at h
        simp [dictOutcomeResults] at h
      | some p =>
        obtain ⟨rs2, maps2⟩ := p
        rw [hx] at h
        simp only [dictOutcomeResults, Option.some.injEq] at h
        subst h
        exact searchAll_invariant d maps cs line ln fuel rs2 maps2 hx
  · intro d maps cs line ln count rs h
    cases hx : Dictionary.searchTake d maps cs line ln count with
    | error e =>
      rw [hx] at h
      simp [takeOutcomeResults] at h
    | ok p =>
      obtain ⟨rs2, maps2⟩ := p
      rw [hx] at h
      simp only [takeOutcomeResults, Option.some.injEq] at h
      subst h
      exact searchTake_invariant d maps cs line ln count rs2 maps2 hx
  · intro store value options fuel rs h
    cases hx : Searcherer.search store value options fuel with
    | error e =>
      rw [hx] at h
      simp [searchOutcomeResults] at h
    | ok o =>
      cases o with
      | none =>
        rw [hx] at h
        simp [searchOutcomeResults] at h
      | some p =>
        obtain ⟨rs2, store2⟩ := p
        rw [hx] at h
        simp only [searchOutcomeResults, Option.some.injEq] at h
        subst h
        exact search_invariant store value options fuel rs2 store2 hx

/-- Witness for C6 on a concrete search result. -/
theorem claim6_substring_invariant_witness :
    resultInvariant ⟨0, ⟨strL "d", [strL "cat"]⟩, strL "cat", 0, strL "cat", strL "cat"⟩ :=
  claim6_substring_invariant.2.2 (freshStore [⟨strL "d", [strL "cat"]⟩])
    (some (strL "cat")) ⟨false, none⟩ 5
    [⟨0, ⟨strL "d", [strL "cat"]⟩, strL "cat", 0, strL "cat", strL "cat"⟩]
    rfl _ (by simp)

/-- Counterexample to C7: one dictionary whose pattern set iterates b before
a, on the line ab, produces the match of b at column 1 before the match of
a at column 0 on the same line, so the list is not ordered tertiarily by
ascending column as the claim states. -/
theorem claim7_counterexample :
    searchOutcomeResults (Searcherer.search (freshStore [⟨strL "d", [strL "b", strL "a"]⟩])
      (some (strL "ab")) ⟨false, none⟩ 5) =
      some [⟨1, ⟨strL "d", [strL "b", strL "a"]⟩, strL "ab", 0, strL "b", strL "b"⟩,
            ⟨0, ⟨strL "d", [strL "b", strL "a"]⟩, strL "ab", 0, strL "a", strL "a"⟩] ∧
    ¬ List.Pairwise (claimedOrder [⟨strL "d", [strL "b", strL "a"]⟩])
      [⟨1, ⟨strL "d", [strL "b", strL "a"]⟩, strL "ab", 0, strL "b", strL "b"⟩,
       ⟨0, ⟨strL "d", [strL "b", strL "a"]⟩, strL "ab", 0, strL "a", strL "a"⟩] :=
  ⟨rfl, by decide⟩

/-- Claim C7 as amended: the Result list of Searcherer.search is ordered
primarily by ascending line number, secondarily by dictionary iteration
order, then by pattern iteration order within the dictionary, and by
ascending column only within a single pattern's matches; in particular, for
the text with cat on lines 0 and 2, the results carry line numbers 0 then 2. -/
theorem claim7_amended_order :
    (∀ ds v cs fuel rs, ds.Nodup → (∀ d ∈ ds, d.patterns.Nodup) →
      searchOutcomeResults
        (Searcherer.search (freshStore ds) (some v) ⟨cs, none⟩ fuel) = some rs →
      rs.Pairwise (resultOrder ds)) ∧
    searchOutcomeResults (Searcherer.search (freshStore [⟨strL "d", [strL "cat"]⟩])
      (some (strL "cat\ndog\ncat")) ⟨false, none⟩ 5) =
      some [⟨0, ⟨strL "d", [strL "cat"]⟩, strL "cat", 0, strL "cat", strL "cat"⟩,
            ⟨0, ⟨strL "d", [strL "cat"]⟩, strL "cat", 2, strL "cat", strL "cat"⟩] :=
  ⟨fun ds v cs fuel rs hnd hpnd h => search_ordered ds v cs fuel rs hnd hpnd h, rfl⟩

/-- Witness for the amended C7 at the concrete multi-line example. -/
theorem claim7_amended_order_witness :
    List.Pairwise (resultOrder [⟨strL "d", [strL "cat"]⟩])
      [⟨0, ⟨strL "d", [strL "cat"]⟩, strL "cat", 0, strL "cat", strL "cat"⟩,
       ⟨0, ⟨strL "d", [strL "cat"]⟩, strL "cat", 2, strL "cat", strL "cat"⟩] :=
  claim7_amended_order.1 [⟨strL "d", [strL "cat"]⟩] (strL "cat\ndog\ncat") false 5
    [⟨0, ⟨strL "d", [strL "cat"]⟩, strL "cat", 0, strL "cat", strL "cat"⟩,
     ⟨0, ⟨strL "d", [strL "cat"]⟩, strL "cat", 2, strL "cat", strL "cat"⟩]
    (by decide) (by intro d hd; simp at hd; subst hd; decide) rfl

/-- Claim C8: the spec says searchFileSync reads the file's bytes, decodes
them and returns the same Results as search on the decoded text. The source
instead calls the asynchronous fs.readFile with no callback, which throws a
TypeError before reading anything, while the asynchronous variant does
agree with the in-memory search on the decoded contents. -/
theorem claim8_sync_read_bug :
    Searcherer.searchFileSync (freshStore [⟨strL "d", [strL "cat"]⟩])
      (fun p => if p = strL "f" then some (encodeAscii (strL "cat")) else none)
      (strL "f") ⟨false, none⟩ 5 =
      some (.error (.typeError (strL "Callback must be a function"))) ∧
    fileOutcomeResults (Searcherer.searchFile (freshStore [⟨strL "d", [strL "cat"]⟩])
      (fun p => if p = strL "f" then some (encodeAscii (strL "cat")) else none)
      (strL "f") ⟨false, none⟩ 5) =
      searchOutcomeResults (Searcherer.search (freshStore [⟨strL "d", [strL "cat"]⟩])
        (some (strL "cat")) ⟨false, none⟩ 5) ∧
    searchOutcomeResults (Searcherer.search (freshStore [⟨strL "d", [strL "cat"]⟩])
      (some (strL "cat")) ⟨false, none⟩ 5) =
      some [⟨0, ⟨strL "d", [strL "cat"]⟩, strL "cat", 0, strL "cat", strL "cat"⟩] :=
  ⟨rfl, rfl, rfl⟩

/-- Claim C9: constructing a Dictionary with the malformed pattern of a lone
opening group succeeds without any compilation; the compilation failure
surfaces on the first search with a given case-sensitivity mode as a
pattern-compilation error, and it propagates uncaught through
Searcherer.search. -/
theorem claim9_lazy_compilation :
    Dictionary.new ⟨none, some (.arr [.str (strL "(")])⟩ =
      some ⟨strL "<unknown>", [strL "("]⟩ ∧
    (∀ ic, regExpNew (strL "(") ic = .error (.patternCompilation (strL "("))) ∧
    (∀ maps cs line ln fuel, RegExpMaps.get maps cs = none →
      Dictionary.searchAll ⟨strL "<unknown>", [strL "("]⟩ maps cs line ln fuel =
        .error (.patternCompilation (strL "("))) ∧
    (∀ v cs fuel, v ≠ [] →
      Searcherer.search (freshStore [⟨strL "<unknown>", [strL "("]⟩]) (some v)
        ⟨cs, none⟩ fuel = .error (.patternCompilation (strL "("))) :=
  ⟨rfl, regExpNew_lparen,
   fun maps cs line ln fuel h => searchAll_badPattern (strL "<unknown>") maps cs line ln fuel h,
   fun v cs fuel hv => search_badPattern (strL "<unknown>") v cs fuel hv⟩

/-- Witness for C9 at a concrete mode, line and text. -/
theorem claim9_lazy_compilation_witness :
    Dictionary.searchAll ⟨strL "<unknown>", [strL "("]⟩ RegExpMaps.empty true
      (strL "x") 0 5 = .error (.patternCompilation (strL "(")) ∧
    Searcherer.search (freshStore [⟨strL "<unknown>", [strL "("]⟩]) (some (strL "x"))
      ⟨true, none⟩ 5 = .error (.patternCompilation (strL "(")) :=
  ⟨claim9_lazy_compilation.2.2.1 RegExpMaps.empty true (strL "x") 0 5 rfl,
   claim9_lazy_compilation.2.2.2 (strL "x") true 5 (by decide)⟩

/-- Counterexample to C10: parsing the JSON array with the single pattern a
under defaults carrying the name x yields the unknown-sentinel name, not the
caller default. -/
theorem claim10_counterexample :
    Dictionary.parse (some (strL "[\"a\"]")) ⟨some (.str (strL "x")), none⟩ =
      some (.ok (some ⟨strL "<unknown>", [strL "a"]⟩)) ∧
    (strL "<unknown>" : Str) ≠ strL "x" :=
  ⟨rfl, by decide⟩

/-- Claim C10 as amended: an input decoding to a JSON array of pattern
strings takes the array branch, which passes only the patterns to the
constructor and ignores the defaults entirely, so the resulting Dictionary
is named with the unknown sentinel and carries the deduplicated array
elements as patterns. -/
theorem claim10_amended (raw : Str) (xs : List JsValue) (pats : List Str)
    (defaults : DictionaryOptions)
    (h : jsonParse raw = .ok (.arr xs)) (h2 : asStrings xs = some pats) :
    Dictionary.parse (some raw) defaults =
      some (.ok (some ⟨strL "<unknown>", insertionDedup pats⟩)) :=
  parse_array_branch raw xs pats defaults h h2

/-- Witness for the amended C10 at the concrete input of the claim. -/
theorem claim10_amended_witness :
    Dictionary.parse (some (strL "[\"a\"]")) ⟨some (.str (strL "x")), none⟩ =
      some (.ok (some ⟨strL "<unknown>", insertionDedup [strL "a"]⟩)) :=
  claim10_amended (strL "[\"a\"]") [.str (strL "a")] [strL "a"]
    ⟨some (.str (strL "x")), none⟩ rfl rfl
